import Mathlib

/-!
Verification of the SIMA mortality-modeling core against its specification.

This file gives a shallow embedding, over the real numbers, of the parts of
the pipeline that the specification's claims are about:

* `backend/engine/a06_mortality_data.py` — dataset validation, accessors
  (`_validate_age` / `_validate_year` via `np.searchsorted`), and age capping
  (`_cap_ages`, `_cap_ages_sum`);
* `backend/engine/a07_graduation.py` — Whittaker-Henderson graduation:
  difference matrices, the per-year linear system
  `(W + lambda * D'D) z = W m`, and the `roughness` diagnostic;
* `backend/engine/a08_lee_carter.py` — the Lee-Carter fit: row means, SVD of
  the residual (modelled relationally by its defining equations), the
  identifiability normalisation, and the three-tier `k_t` re-estimation
  (`brentq` on a wide bracket, grid scan for a sign change, best-effort
  nearest grid point);
* `backend/engine/a09_projection.py` — projected years, the central `k_t`
  path, `get_projected_mx`, and the bridge `to_life_table`;
* `backend/engine/a01_life_table.py` — the `LifeTable` derivation of
  `d_x`, `q_x`, `p_x` from `l_x` with the terminal-age convention.

Floating point arithmetic is embedded as exact real arithmetic.  Calls into
numpy/scipy are embedded as follows: `np.linalg.svd` by the defining
properties of a singular value decomposition, `scipy.optimize.brentq` by
"an exact root inside the bracket" (its documented guarantee, idealising the
2e-12 tolerance), and `scipy.sparse.linalg.spsolve` by "a solution of the
linear system".  Division by zero in the source (numpy would produce inf/nan)
corresponds to Lean's `x / 0 = 0` convention; every theorem that touches such
a case is explicit about it.
-/

namespace SIMA

/-! ### a06: dataset validation (`_validate`) -/

/-- Embedding of `_validate` in `a06_mortality_data.py`: all rates positive,
all exposures positive, and the recomputed rates `dx/ex` within 1% relative
tolerance of `mx` (the relative error is damped by `1e-12` exactly as in the
source).  The NaN checks are vacuous over `ℝ` and the shape check is enforced
by the types. -/
def ValidMortalityData {na ny : ℕ} (mx dx ex : Matrix (Fin na) (Fin ny) ℝ) : Prop :=
  (∀ x t, 0 < mx x t) ∧ (∀ x t, 0 < ex x t) ∧
    (∀ x t, |mx x t - dx x t / ex x t| / (mx x t + 1e-12) ≤ 0.01)

/-! ### a06: sorted-array lookup (`np.searchsorted` based accessors) -/

/-- Value of `np.searchsorted(arr, x)` (side `left`) on a sorted array: the
number of entries strictly below `x`. -/
def searchsortedCount {n : ℕ} (arr : Fin n → ℤ) (x : ℤ) : ℕ :=
  (Finset.univ.filter fun i => arr i < x).card

/-- Embedding of `_validate_age` / `_validate_year`: compute the insertion
index, and fail (`none`) when it is out of bounds or the entry there differs
from the requested key; otherwise return the index.  Raising `ValueError`
is modelled as `none`. -/
def validateIdx {n : ℕ} (arr : Fin n → ℤ) (x : ℤ) : Option (Fin n) :=
  if h : searchsortedCount arr x < n then
    (if arr ⟨searchsortedCount arr x, h⟩ = x then some ⟨searchsortedCount arr x, h⟩ else none)
  else none

/-- Embedding of `MortalityData.get_mx`: validate the age, validate the year,
then read the cell. -/
def getMx {na ny : ℕ} (mx : Matrix (Fin na) (Fin ny) ℝ) (ages : Fin na → ℤ)
    (years : Fin ny → ℤ) (age year : ℤ) : Option ℝ :=
  (validateIdx ages age).bind fun i => (validateIdx years year).bind fun j => some (mx i j)

/-- Embedding of `MortalityData.year_slice`: validate the year, then return
the age-vector of rates for that year. -/
def yearSlice {na ny : ℕ} (mx : Matrix (Fin na) (Fin ny) ℝ) (years : Fin ny → ℤ)
    (year : ℤ) : Option (Fin na → ℝ) :=
  (validateIdx years year).map fun j x => mx x j

/-- Embedding of `MortalityData.age_slice`: validate the age, then return the
year-vector of rates for that age. -/
def ageSlice {na ny : ℕ} (mx : Matrix (Fin na) (Fin ny) ℝ) (ages : Fin na → ℤ)
    (age : ℤ) : Option (Fin ny → ℝ) :=
  (validateIdx ages age).map fun i t => mx i t

/-! ### a06: age capping (`_cap_ages_sum`, `_cap_ages`)

The long-format data frames are embedded as a finite set of `(year, age)`
keys together with a value function on keys; `groupby(...).sum()` becomes a
`Finset` sum over the fibres of the grouping map.  The final `pivot` is
key-preserving, so the matrix cell `(age, year)` of the loaded dataset holds
the long-format value at key `(year, age)`. -/

/-- Age reassignment performed by `df.loc[df["Age"] > age_max, "Age"] = age_max`. -/
def foldAge (ageMax a : ℤ) : ℤ := if ageMax < a then ageMax else a

/-- Embedding of `_cap_ages_sum`: value of the capped frame at `(year, age)`,
i.e. the `groupby(["Year", "Age"]).sum()` after the age reassignment. -/
noncomputable def capSumEntry (rows : Finset (ℤ × ℤ)) (v : ℤ × ℤ → ℝ) (ageMax year age : ℤ) : ℝ :=
  ∑ r ∈ rows.filter (fun r => r.1 = year ∧ foldAge ageMax r.2 = age), v r

/-- Sum of a frame's values over the rows of one year with age `≥ ageMax`
(the `df[df["Age"] >= age_max].groupby("Year")["Value"].sum()` of
`_cap_ages`). -/
noncomputable def aggAbove (rows : Finset (ℤ × ℤ)) (v : ℤ × ℤ → ℝ) (ageMax year : ℤ) : ℝ :=
  ∑ r ∈ rows.filter (fun r => r.1 = year ∧ ageMax ≤ r.2), v r

/-- Embedding of `_cap_ages`: rows with age strictly below the ceiling keep
the original rate; the ceiling age receives aggregated deaths over aggregated
exposure.  (Ages above the ceiling do not occur in the concatenated frame.) -/
noncomputable def capMxEntry (rows : Finset (ℤ × ℤ)) (mxv dxv exv : ℤ × ℤ → ℝ)
    (ageMax year age : ℤ) : ℝ :=
  if age < ageMax then mxv (year, age)
  else aggAbove rows dxv ageMax year / aggAbove rows exv ageMax year

/-! ### a07: Whittaker-Henderson graduation -/

/-- First-order difference matrix `sparse.diags([1, -1], [0, 1])` of shape
`(n-1) × n`: row `i` is `1` at column `i` and `-1` at column `i+1`. -/
noncomputable def diffMatrix1 (n : ℕ) : Matrix (Fin (n - 1)) (Fin n) ℝ :=
  Matrix.of fun i j => if (j : ℕ) = (i : ℕ) then 1 else if (j : ℕ) = (i : ℕ) + 1 then -1 else 0

/-- Embedding of `_build_difference_matrix`: the base case is the first-order
matrix and each further order composes another first-order matrix on the
left.  (`order = 0` does not occur in the source; it is mapped to the
identity so that the recursion below is the source's loop.) -/
noncomputable def buildDifferenceMatrix (n : ℕ) : (order : ℕ) → Matrix (Fin (n - order)) (Fin n) ℝ
  | 0 => Matrix.of fun i j => if (i : ℕ) = (j : ℕ) then 1 else 0
  | h + 1 => diffMatrix1 (n - h) * buildDifferenceMatrix n h

/-- Coefficient matrix `W + lambda * D'D` of `_whittaker_henderson_1d` with
the constructor's difference order 2. -/
noncomputable def whMatrix {n : ℕ} (lam : ℝ) (w : Fin n → ℝ) : Matrix (Fin n) (Fin n) ℝ :=
  Matrix.diagonal w +
    lam • ((buildDifferenceMatrix n 2).transpose * buildDifferenceMatrix n 2)

/-- The linear system `(W + lambda * D'D) z = W m` solved by `spsolve` in
`_whittaker_henderson_1d`: `z` is a graduated log-rate vector for observed
log rates `m` and weights `w`. -/
def whSystem {n : ℕ} (lam : ℝ) (w m z : Fin n → ℝ) : Prop :=
  (whMatrix lam w).mulVec z = (Matrix.diagonal w).mulVec m

/-- Weight vector chosen by `_graduate_all_years` for year `j`: the exposure
column when `weight_by_exposure` is set, else all ones. -/
def gradWeights {na ny : ℕ} (weightByExposure : Bool) (ex : Matrix (Fin na) (Fin ny) ℝ)
    (j : Fin ny) : Fin na → ℝ :=
  if weightByExposure then (fun x => ex x j) else fun _ => 1

/-- Embedding of `_graduate_all_years`: `z` is a matrix of graduated log
rates, each year column solving the Whittaker-Henderson system for that
year's log rates and weights. -/
def graduationOk {na ny : ℕ} (lam : ℝ) (weightByExposure : Bool)
    (ex rawMx z : Matrix (Fin na) (Fin ny) ℝ) : Prop :=
  ∀ j : Fin ny,
    whSystem lam (gradWeights weightByExposure ex j)
      (fun x => Real.log (rawMx x j)) (fun x => z x j)

/-- Exponentiation back to rate space at the end of `_graduate_all_years`:
the `GraduatedRates.mx` surface. -/
noncomputable def graduatedMx {na ny : ℕ} (z : Matrix (Fin na) (Fin ny) ℝ) : Matrix (Fin na) (Fin ny) ℝ :=
  Matrix.of fun x j => Real.exp (z x j)

/-- Second difference `np.diff(col, n=2)` at position `i`. -/
noncomputable def secondDiff {n : ℕ} (v : Fin n → ℝ) (i : Fin (n - 2)) : ℝ :=
  v ⟨(i : ℕ) + 2, by omega⟩ - 2 * v ⟨(i : ℕ) + 1, by omega⟩ + v ⟨(i : ℕ), by omega⟩

/-- Embedding of `GraduatedRates.roughness`: the sum over years of the sum of
squared second age-differences of the log rates. -/
noncomputable def roughness {na ny : ℕ} (rates : Matrix (Fin na) (Fin ny) ℝ) : ℝ :=
  ∑ j : Fin ny, ∑ i : Fin (na - 2), (secondDiff (fun x => Real.log (rates x j)) i) ^ 2

/-! ### a08: the Lee-Carter fit

`LeeCarter.fit` computes row means of the log-rate matrix, takes the first
SVD component of the residual, normalises it (`_apply_constraints`), and
optionally re-estimates `k_t` against observed death counts
(`_reestimate_kt`).  `np.linalg.svd` is embedded relationally: an `LCFit`
record carries candidate factors `U`, `S`, `Vt` and `LCFit.Spec` asserts the
defining properties of the decomposition (reconstruction, orthonormal
columns/rows, sorted nonnegative singular values) together with the
root-finding conditions for the re-estimated `k_t`. -/

/-- Row means `np.mean(log_mx, axis=1)` (the `_compute_ax` step). -/
noncomputable def rowMean {na ny : ℕ} (a : Matrix (Fin na) (Fin ny) ℝ) (x : Fin na) : ℝ :=
  (∑ t, a x t) / ny

/-- Elementwise logarithm `np.log(data.mx)`. -/
noncomputable def logMxOf {na ny : ℕ} (mx : Matrix (Fin na) (Fin ny) ℝ) :
    Matrix (Fin na) (Fin ny) ℝ :=
  Matrix.of fun x t => Real.log (mx x t)

/-- Residual matrix `log_mx - ax[:, np.newaxis]`. -/
noncomputable def residualOf {na ny : ℕ} (a : Matrix (Fin na) (Fin ny) ℝ) :
    Matrix (Fin na) (Fin ny) ℝ :=
  Matrix.of fun x t => a x t - rowMean a x

/-- Function whose root `_reestimate_kt` seeks for one year: model-implied
total deaths minus observed total deaths (`death_residual` in the source). -/
noncomputable def deathResidual {na : ℕ} (axv bxv ev : Fin na → ℝ) (obs k : ℝ) : ℝ :=
  (∑ x, ev x * Real.exp (axv x + bxv x * k)) - obs

/-- Grid `np.linspace(-500, 500, 201)` used by the adaptive scan:
the `i`-th candidate is `-500 + 5 i`. -/
def kCandidates (i : Fin 201) : ℝ :=
  -500 + 5 * (i : ℕ)

/-- Three-tier behaviour of `_reestimate_kt` for a single year, relating the
residual function `f` to the produced value.  Tier `bracket` is
`brentq(f, -500, 500)` (which succeeds exactly when the bracket endpoints
have opposite signs, returning a root inside); tier `scan` fires after a
`ValueError`, finds the first adjacent grid pair with a sign change, and
refines with `brentq` inside it; tier `nearest` fires when no grid sign
change exists, returning the first grid point minimising `|f|`
(`np.argmin`). -/
inductive ReestimateYear (f : ℝ → ℝ) : ℝ → Prop
  | bracket (r : ℝ) (hb : f (-500) * f 500 < 0)
      (hr : r ∈ Set.Ioo (-500 : ℝ) 500) (hroot : f r = 0) : ReestimateYear f r
  | scan (r : ℝ) (i : Fin 200) (hb : ¬ f (-500) * f 500 < 0)
      (hsc : f (kCandidates i.castSucc) * f (kCandidates i.succ) < 0)
      (hfst : ∀ i' : Fin 200, i' < i →
        ¬ f (kCandidates i'.castSucc) * f (kCandidates i'.succ) < 0)
      (hr : r ∈ Set.Ioo (kCandidates i.castSucc) (kCandidates i.succ))
      (hroot : f r = 0) : ReestimateYear f r
  | nearest (j : Fin 201) (hb : ¬ f (-500) * f 500 < 0)
      (hsc : ∀ i : Fin 200, ¬ f (kCandidates i.castSucc) * f (kCandidates i.succ) < 0)
      (hmin : ∀ i : Fin 201, |f (kCandidates j)| ≤ |f (kCandidates i)|)
      (hfst : ∀ i : Fin 201, i < j → |f (kCandidates j)| < |f (kCandidates i)|) :
      ReestimateYear f (kCandidates j)

/-- Data of one run of `LeeCarter.fit`: the input matrices, the factors
returned by `np.linalg.svd(residual, full_matrices=False)` (so `k` ages
`min na ny`), and the per-year root-finding outputs `ktNew` used when
re-estimation is on.  The defining properties live in `LCFit.Spec`. -/
structure LCFit (na ny k : ℕ) where
  mx : Matrix (Fin na) (Fin ny) ℝ
  dx : Matrix (Fin na) (Fin ny) ℝ
  ex : Matrix (Fin na) (Fin ny) ℝ
  U : Matrix (Fin na) (Fin k) ℝ
  S : Fin k → ℝ
  Vt : Matrix (Fin k) (Fin ny) ℝ
  ktNew : Fin ny → ℝ

namespace LCFit

variable {na ny k : ℕ} [NeZero k] (F : LCFit na ny k)

/-- Raw first left singular vector `U[:, 0]` (`bx_raw`). -/
def bxRaw (x : Fin na) : ℝ := F.U x 0

/-- Raw time index `S[0] * Vt[0, :]` (`kt_raw`). -/
noncomputable def ktRaw (t : Fin ny) : ℝ := F.S 0 * F.Vt 0 t

/-- Sum `np.sum(bx_raw)` before the sign flip. -/
noncomputable def bxSumRaw : ℝ := ∑ x, F.bxRaw x

/-- Normalised sensitivity `bx = bx_raw / bx_sum` after the sign convention
branch of `_apply_constraints` (when `bx_sum < 0` both `bx_raw` and `bx_sum`
are negated first). -/
noncomputable def bxFinal (x : Fin na) : ℝ :=
  (if F.bxSumRaw < 0 then -F.bxRaw x else F.bxRaw x) /
    (if F.bxSumRaw < 0 then -F.bxSumRaw else F.bxSumRaw)

/-- Rescaled time index `kt = kt_raw * bx_sum` after the sign branch. -/
noncomputable def ktScaled (t : Fin ny) : ℝ :=
  (if F.bxSumRaw < 0 then -F.ktRaw t else F.ktRaw t) *
    (if F.bxSumRaw < 0 then -F.bxSumRaw else F.bxSumRaw)

/-- Centering offset `np.mean(kt)` removed in `_apply_constraints`. -/
noncomputable def ktOffset : ℝ := (∑ t, F.ktScaled t) / ny

/-- Centered time index returned by `_apply_constraints`. -/
noncomputable def ktCentered (t : Fin ny) : ℝ := F.ktScaled t - F.ktOffset

/-- Age profile after folding the SVD centering offset back in:
`ax = ax + bx * kt_offset` in `fit`. -/
noncomputable def ax1 (x : Fin na) : ℝ :=
  rowMean (logMxOf F.mx) x + F.bxFinal x * F.ktOffset

/-- Observed total deaths of year `t`: `np.sum(dx[:, t])`. -/
noncomputable def obsDeaths (t : Fin ny) : ℝ := ∑ x, F.dx x t

/-- The `death_residual` closure of year `t` inside `_reestimate_kt`, built
from the post-SVD age profile and the normalised sensitivity. -/
noncomputable def yearResidual (t : Fin ny) : ℝ → ℝ :=
  deathResidual F.ax1 F.bxFinal (fun x => F.ex x t) (F.obsDeaths t)

/-- Re-centering offset `np.mean(kt_new)` of `_reestimate_kt`. -/
noncomputable def reestOffset : ℝ := (∑ t, F.ktNew t) / ny

/-- Final age profile of the fitted model (`self.ax`): with re-estimation the
re-centering offset is folded in a second time. -/
noncomputable def axFinal (re : Bool) (x : Fin na) : ℝ :=
  if re then F.ax1 x + F.bxFinal x * F.reestOffset else F.ax1 x

/-- Final time index of the fitted model (`self.kt`). -/
noncomputable def ktFinal (re : Bool) (t : Fin ny) : ℝ :=
  if re then F.ktNew t - F.reestOffset else F.ktCentered t

/-- Defining properties making an `LCFit` record an actual run of
`LeeCarter.fit` with `reestimate_kt = re`: the dimension bookkeeping of
`full_matrices=False`, the SVD equations for `U, S, Vt` on the residual of
the log-rate matrix, and (when `re`) the three-tier root-finding relation
for every year. -/
def Spec (re : Bool) : Prop :=
  k = min na ny ∧ 0 < na ∧ 0 < ny ∧
    residualOf (logMxOf F.mx) = F.U * Matrix.diagonal F.S * F.Vt ∧
    F.U.transpose * F.U = 1 ∧
    F.Vt * F.Vt.transpose = 1 ∧
    (∀ i, 0 ≤ F.S i) ∧
    (∀ i j : Fin k, i ≤ j → F.S j ≤ F.S i) ∧
    (re = true → ∀ t, ReestimateYear (F.yearResidual t) (F.ktNew t))

end LCFit

/-! ### a09: projection and the bridge to the life table -/

/-- Future years `np.arange(last_year + 1, last_year + 1 + horizon)`. -/
def projectedYears (lastYear : ℤ) (horizon : ℕ) : Fin horizon → ℤ :=
  fun h => lastYear + 1 + (h : ℕ)

/-- Embedding of `_validate_projection_year`: searchsorted plus equality
check on the projected years, `none` for the raised `ValueError`. -/
def validateProjYear (lastYear : ℤ) (horizon : ℕ) (year : ℤ) : Option (Fin horizon) :=
  validateIdx (projectedYears lastYear horizon) year

/-- Drift `(kt[-1] - kt[0]) / (n - 1)` estimated from the observed time
index (over `m + 1` observed years there are `m` intervals). -/
noncomputable def ktDrift {m : ℕ} (kt : Fin (m + 1) → ℝ) : ℝ :=
  (kt (Fin.last m) - kt 0) / m

/-- Central projection `kt_central[h] = kt[-1] + (h+1) * drift`
(`_project_kt_central` uses `h = np.arange(1, horizon + 1)`). -/
noncomputable def ktCentralArr {m : ℕ} (kt : Fin (m + 1) → ℝ) (horizon : ℕ)
    (h : Fin horizon) : ℝ :=
  kt (Fin.last m) + ((h : ℕ) + 1) * ktDrift kt

/-- Embedding of `get_projected_mx`: the year is validated, but the age is
only passed through `np.searchsorted` with no equality check — an index
within bounds is used as-is (an out-of-bounds index raises `IndexError`,
modelled by `none`). -/
noncomputable def getProjectedMx {n : ℕ} (ages : Fin n → ℤ) (axv bxv : Fin n → ℝ)
    {m : ℕ} (kt : Fin (m + 1) → ℝ) (lastYear : ℤ) (horizon : ℕ)
    (age year : ℤ) : Option ℝ :=
  (validateProjYear lastYear horizon year).bind fun j =>
    if h : searchsortedCount ages age < n then
      some (Real.exp (axv ⟨searchsortedCount ages age, h⟩ +
        bxv ⟨searchsortedCount ages age, h⟩ * ktCentralArr kt horizon j))
    else none

/-- Projected central death rates `mx = np.exp(ax + bx * kt)` for one target
year inside `to_life_table`. -/
noncomputable def bridgeMx {n : ℕ} (axv bxv : Fin n → ℝ) (ktv : ℝ) (i : Fin n) : ℝ :=
  Real.exp (axv i + bxv i * ktv)

/-- The clamp `np.clip(x, 0.0, 1.0)`. -/
noncomputable def clip01 (x : ℝ) : ℝ := min 1 (max 0 x)

/-- Death probabilities built by `to_life_table`: `q = 1 - exp(-mx)`, then
the terminal entry is forced to `1.0`, then everything is clipped to
`[0, 1]`. -/
noncomputable def bridgeQx {n : ℕ} (mxv : Fin (n + 1) → ℝ) (i : Fin (n + 1)) : ℝ :=
  clip01 (if i = Fin.last n then 1 else 1 - Real.exp (-mxv i))

/-- Survivor recurrence `lx[0] = radix; lx[i+1] = lx[i] * (1 - qx[i])`,
unrolled over `ℕ`. -/
noncomputable def bridgeLxNat (qx : ℕ → ℝ) (radix : ℝ) : ℕ → ℝ
  | 0 => radix
  | i + 1 => bridgeLxNat qx radix i * (1 - qx i)

/-- Survivor counts of the bridged life table. -/
noncomputable def bridgeLx {n : ℕ} (qx : Fin (n + 1) → ℝ) (radix : ℝ)
    (i : Fin (n + 1)) : ℝ :=
  bridgeLxNat (fun j => if h : j < n + 1 then qx ⟨j, h⟩ else 0) radix i

/-! ### a01: the `LifeTable` derivation (`_compute_derivatives`)

A table over `n + 1` consecutive ages is indexed by `Fin (n + 1)`; the
terminal age is `Fin.last n`. -/

/-- Deaths `d_x = l_x - l_{x+1}`, with `d_omega = l_omega` at the terminal
age. -/
noncomputable def ltD {n : ℕ} (l : Fin (n + 1) → ℝ) (i : Fin (n + 1)) : ℝ :=
  if h : (i : ℕ) < n then l i - l ⟨(i : ℕ) + 1, by omega⟩ else l i

/-- Death probability `q_x = d_x / l_x` when `l_x > 0` (else the edge case
`1.0`), with `q_omega = 1.0` forced at the terminal age. -/
noncomputable def ltQ {n : ℕ} (l : Fin (n + 1) → ℝ) (i : Fin (n + 1)) : ℝ :=
  if h : (i : ℕ) < n then
    (if 0 < l i then (l i - l ⟨(i : ℕ) + 1, by omega⟩) / l i else 1)
  else 1

/-- Survival probability `p_x = 1 - q_x` (`p_omega = 0.0` agrees with
`1 - q_omega`). -/
noncomputable def ltP {n : ℕ} (l : Fin (n + 1) → ℝ) (i : Fin (n + 1)) : ℝ :=
  1 - ltQ l i

/-- Survivor counts of the bridged table truncated by the `age_max` mask of
`to_life_table`: with consecutive model ages, keeping ages up to the
`c`-th one keeps exactly the first `c + 1` entries. -/
noncomputable def subsetLx {n : ℕ} (l : Fin (n + 1) → ℝ) (c : ℕ) (hc : c ≤ n)
    (i : Fin (c + 1)) : ℝ :=
  l (Fin.castLE (by omega) i)

/-! ### Concrete datasets and fit runs

`fitC1` is a run of `LeeCarter.fit(reestimate_kt=True)` on a 2-age, 2-year
dataset whose log rates are exactly rank-one around their row means, with
mixed-sign sensitivity `bx = (2, -1)`.  For year 0 the implied-deaths
function never meets the observed count anywhere near the scan grid, so the
best-effort tier fires.  `fitC4` is a run on the symmetric dataset whose
dominant residual direction sums to zero, so the `bx_raw / bx_sum`
normalisation divides by zero. -/

/-- Log-rate matrix of the first concrete dataset: rows
`(5, -5)` and `(5, 10)`; row means `(0, 7.5)`; residual
`((5, -5), (-2.5, 2.5))`, which is `2.5 * (2, -1) ⊗ (1, -1)`. -/
noncomputable def logMxC1 : Matrix (Fin 2) (Fin 2) ℝ := !![5, -5; 5, 10]

/-- Rates of the first concrete dataset. -/
noncomputable def mxC1 : Matrix (Fin 2) (Fin 2) ℝ :=
  Matrix.of fun x t => Real.exp (logMxC1 x t)

/-- Exposures of the first concrete dataset. -/
noncomputable def exC1 : Matrix (Fin 2) (Fin 2) ℝ := !![1, 1; 2, 2]

/-- Death counts of the first concrete dataset, exactly consistent with
`mx = dx / ex`. -/
noncomputable def dxC1 : Matrix (Fin 2) (Fin 2) ℝ :=
  Matrix.of fun x t => exC1 x t * mxC1 x t

/-- Left singular factor of the residual of `logMxC1`. -/
noncomputable def UC1 : Matrix (Fin 2) (Fin 2) ℝ :=
  !![2 / Real.sqrt 5, 1 / Real.sqrt 5; -(1 / Real.sqrt 5), 2 / Real.sqrt 5]

/-- Singular values of the residual of `logMxC1`. -/
noncomputable def SC1 : Fin 2 → ℝ := ![5 / 2 * Real.sqrt 10, 0]

/-- Right singular factor of the residual of `logMxC1`. -/
noncomputable def VtC1 : Matrix (Fin 2) (Fin 2) ℝ :=
  !![1 / Real.sqrt 2, -(1 / Real.sqrt 2); 1 / Real.sqrt 2, 1 / Real.sqrt 2]

/-- Root-finding outputs of `_reestimate_kt` on the first dataset: year 0
lands on grid point `0` through the best-effort tier, year 1 finds the exact
root `-2.5` inside the grid cell `(-5, 0)`. -/
noncomputable def ktNewC1 : Fin 2 → ℝ := ![0, -(5 / 2)]

/-- The complete run of `LeeCarter.fit(reestimate_kt=True)` on the first
concrete dataset. -/
noncomputable def fitC1 : LCFit 2 2 2 :=
  { mx := mxC1, dx := dxC1, ex := exC1, U := UC1, S := SC1, Vt := VtC1, ktNew := ktNewC1 }

/-- Log-rate matrix of the second concrete dataset: the symmetric surface
`((1, -1), (-1, 1))` with zero row means; its dominant singular direction
`(1, -1)/sqrt 2` sums to zero. -/
noncomputable def logMxC4 : Matrix (Fin 2) (Fin 2) ℝ := !![1, -1; -1, 1]

/-- Rates of the second concrete dataset. -/
noncomputable def mxC4 : Matrix (Fin 2) (Fin 2) ℝ :=
  Matrix.of fun x t => Real.exp (logMxC4 x t)

/-- Exposures of the second concrete dataset (all ones). -/
noncomputable def exC4 : Matrix (Fin 2) (Fin 2) ℝ := !![1, 1; 1, 1]

/-- Death counts of the second concrete dataset, exactly `mx * ex`. -/
noncomputable def dxC4 : Matrix (Fin 2) (Fin 2) ℝ :=
  Matrix.of fun x t => exC4 x t * mxC4 x t

/-- Left singular factor of the residual of `logMxC4`. -/
noncomputable def UC4 : Matrix (Fin 2) (Fin 2) ℝ :=
  !![1 / Real.sqrt 2, 1 / Real.sqrt 2; -(1 / Real.sqrt 2), 1 / Real.sqrt 2]

/-- Singular values of the residual of `logMxC4`. -/
noncomputable def SC4 : Fin 2 → ℝ := ![2, 0]

/-- Right singular factor of the residual of `logMxC4`. -/
noncomputable def VtC4 : Matrix (Fin 2) (Fin 2) ℝ :=
  !![1 / Real.sqrt 2, -(1 / Real.sqrt 2); 1 / Real.sqrt 2, 1 / Real.sqrt 2]

/-- The complete run of `LeeCarter.fit(reestimate_kt=False)` on the second
concrete dataset. -/
noncomputable def fitC4 : LCFit 2 2 2 :=
  { mx := mxC4, dx := dxC4, ex := exC4, U := UC4, S := SC4, Vt := VtC4,
    ktNew := fun _ => 0 }

/-- Ages of the concrete projection model used for the accessor claims. -/
def agesC5 : Fin 2 → ℤ := ![20, 21]

/-- Observed time index of the concrete projection model (two observed
years, both zero, so drift `0`). -/
noncomputable def ktObsC5 : Fin 2 → ℝ := ![0, 0]

/-- Bridged death probabilities of the concrete 2-age witness model. -/
noncomputable def qxW : Fin 2 → ℝ :=
  bridgeQx (bridgeMx (fun _ : Fin 2 => 0) (fun _ => 0) (ktCentralArr ktObsC5 1 0))

/-- Bridged survivor counts of the concrete 2-age witness model. -/
noncomputable def lxW : Fin 2 → ℝ := bridgeLx qxW 1

/-! ## Helper lemmas -/

theorem foldAge_eq_max_iff (m a : ℤ) : foldAge m a = m ↔ m ≤ a := by
  unfold foldAge
  split_ifs with h <;> omega

theorem ltQ_terminal {n : ℕ} (l : Fin (n + 1) → ℝ) : ltQ l (Fin.last n) = 1 := by
  simp [ltQ]

theorem ltP_terminal {n : ℕ} (l : Fin (n + 1) → ℝ) : ltP l (Fin.last n) = 0 := by
  simp [ltP, ltQ_terminal]

theorem ltD_terminal {n : ℕ} (l : Fin (n + 1) → ℝ) : ltD l (Fin.last n) = l (Fin.last n) := by
  simp [ltD]

theorem clip01_nonneg (x : ℝ) : 0 ≤ clip01 x := by
  unfold clip01
  positivity

theorem clip01_le_one (x : ℝ) : clip01 x ≤ 1 := min_le_left _ _

theorem clip01_lt_one {x : ℝ} (h : x < 1) : clip01 x < 1 :=
  lt_of_le_of_lt (min_le_right _ _) (max_lt one_pos h)

theorem bridgeQx_lt_one {n : ℕ} (mxv : Fin (n + 1) → ℝ) (i : Fin (n + 1))
    (hi : i ≠ Fin.last n) : bridgeQx mxv i < 1 := by
  unfold bridgeQx
  rw [if_neg hi]
  exact clip01_lt_one (by linarith [Real.exp_pos (-mxv i)])

theorem bridgeLx_zero {n : ℕ} (qx : Fin (n + 1) → ℝ) (radix : ℝ) :
    bridgeLx qx radix ⟨0, by omega⟩ = radix := rfl

theorem bridgeLx_succ {n : ℕ} (qx : Fin (n + 1) → ℝ) (radix : ℝ) (i : ℕ) (hi : i < n) :
    bridgeLx qx radix ⟨i + 1, by omega⟩ =
      bridgeLx qx radix ⟨i, by omega⟩ * (1 - qx ⟨i, by omega⟩) := by
  show bridgeLxNat _ radix (i + 1) = _
  rw [bridgeLxNat]
  congr 2
  rw [dif_pos (by omega : i < n + 1)]

/-- For any survivor vector, a positive derived death probability at an age
with positive survivors forces a strict drop in survivors. -/
theorem ltQ_pos_strict_decrease {n : ℕ} (l : Fin (n + 1) → ℝ) (i : ℕ) (hi : i < n)
    (hq : 0 < ltQ l ⟨i, by omega⟩) (hl : 0 < l ⟨i, by omega⟩) :
    l ⟨i + 1, by omega⟩ < l ⟨i, by omega⟩ := by
  have h1 : ltQ l ⟨i, by omega⟩ = (l ⟨i, by omega⟩ - l ⟨i + 1, by omega⟩) / l ⟨i, by omega⟩ := by
    unfold ltQ
    rw [dif_pos hi, if_pos hl]
  rw [h1] at hq
  have := (div_pos_iff.mp hq)
  rcases this with ⟨hnum, _⟩ | ⟨_, hden⟩
  · linarith
  · linarith

/-! ## Claim theorems -/

/-- C9: with age capping at ceiling `age_max`, the loaded count and exposure
entries at the ceiling age are the sums of the raw values over all ages at or
above the ceiling, and the loaded rate at the ceiling is the ratio of those
two sums (the exposure-weighted rate), for every year. -/
theorem capping_is_exposure_weighted (rows : Finset (ℤ × ℤ)) (mxv dxv exv : ℤ × ℤ → ℝ)
    (ageMax year : ℤ) :
    capSumEntry rows dxv ageMax year ageMax = aggAbove rows dxv ageMax year ∧
    capSumEntry rows exv ageMax year ageMax = aggAbove rows exv ageMax year ∧
    capMxEntry rows mxv dxv exv ageMax year ageMax =
      aggAbove rows dxv ageMax year / aggAbove rows exv ageMax year := by
  have hfilter : ∀ v : ℤ × ℤ → ℝ,
      capSumEntry rows v ageMax year ageMax = aggAbove rows v ageMax year := by
    intro v
    unfold capSumEntry aggAbove
    apply Finset.sum_congr _ (fun _ _ => rfl)
    apply Finset.filter_congr
    intro r _
    constructor
    · rintro ⟨h1, h2⟩
      exact ⟨h1, (foldAge_eq_max_iff ageMax r.2).mp h2⟩
    · rintro ⟨h1, h2⟩
      exact ⟨h1, (foldAge_eq_max_iff ageMax r.2).mpr h2⟩
  refine ⟨hfilter dxv, hfilter exv, ?_⟩
  unfold capMxEntry
  rw [if_neg (lt_irrefl ageMax)]

/-- C10: every `LifeTable` imposes the terminal-mortality convention at
whatever maximal age it receives — `q = 1`, `p = 0`, `d = l` there — and in
particular the table bridged from a projection with an `age_max` cut strictly
below the model's last age does so at the cut age, even though the underlying
clipped death probability at that age is strictly below 1. -/
theorem lifetable_terminal_convention :
    (∀ (n : ℕ) (l : Fin (n + 1) → ℝ),
      ltQ l (Fin.last n) = 1 ∧ ltP l (Fin.last n) = 0 ∧ ltD l (Fin.last n) = l (Fin.last n)) ∧
    (∀ (n c : ℕ) (hc : c < n) (axv bxv : Fin (n + 1) → ℝ) (ktv radix : ℝ),
      ltQ (subsetLx (bridgeLx (bridgeQx (bridgeMx axv bxv ktv)) radix) c hc.le)
          (Fin.last c) = 1 ∧
      ltP (subsetLx (bridgeLx (bridgeQx (bridgeMx axv bxv ktv)) radix) c hc.le)
          (Fin.last c) = 0 ∧
      ltD (subsetLx (bridgeLx (bridgeQx (bridgeMx axv bxv ktv)) radix) c hc.le)
          (Fin.last c) =
        subsetLx (bridgeLx (bridgeQx (bridgeMx axv bxv ktv)) radix) c hc.le (Fin.last c) ∧
      bridgeQx (bridgeMx axv bxv ktv) (Fin.castLE (by omega) (Fin.last c)) < 1) := by
  constructor
  · intro n l
    exact ⟨ltQ_terminal l, ltP_terminal l, ltD_terminal l⟩
  · intro n c hc axv bxv ktv radix
    refine ⟨ltQ_terminal _, ltP_terminal _, ltD_terminal _, ?_⟩
    apply bridgeQx_lt_one
    intro hlast
    have : (c : ℕ) = n := congrArg Fin.val hlast
    omega

/-- Witness for C10 at a concrete cut: a 3-age model truncated at its second
age. -/
theorem lifetable_terminal_convention_witness :
    (1 : ℕ) < 2 ∧
    ltQ (subsetLx (bridgeLx (bridgeQx (bridgeMx (fun _ : Fin 3 => 0) (fun _ => 0) 0)) 1) 1
        one_le_two) (Fin.last 1) = 1 ∧
    bridgeQx (bridgeMx (fun _ : Fin 3 => (0 : ℝ)) (fun _ => 0) 0)
        (Fin.castLE (by omega) (Fin.last 1)) < 1 := by
  have h := lifetable_terminal_convention.2 2 1 one_lt_two
    (fun _ => 0) (fun _ => 0) 0 1
  exact ⟨one_lt_two, h.1, h.2.2.2⟩

theorem bridgeQx_bounds {n : ℕ} (mxv : Fin (n + 1) → ℝ) (i : Fin (n + 1)) :
    0 ≤ bridgeQx mxv i ∧ bridgeQx mxv i ≤ 1 :=
  ⟨clip01_nonneg _, clip01_le_one _⟩

theorem ltQ_bridge_eq {n : ℕ} (q : Fin (n + 1) → ℝ) (radix : ℝ) (i : ℕ) (hi : i < n)
    (hpos : 0 < bridgeLx q radix ⟨i, by omega⟩) :
    ltQ (bridgeLx q radix) ⟨i, by omega⟩ = q ⟨i, by omega⟩ := by
  unfold ltQ
  rw [dif_pos hi, if_pos hpos, bridgeLx_succ q radix i hi]
  field_simp
  ring

/-- C6: the life table bridged from a projection at an in-range year with a
positive radix has derived terminal death probability exactly 1, all derived
death probabilities in `[0, 1]`, and survivor counts strictly decreasing at
every age with positive death probability and positive survivors. -/
theorem bridged_lifetable_probabilities (n m horizon : ℕ) (axv bxv : Fin (n + 1) → ℝ)
    (kt : Fin (m + 1) → ℝ) (lastYear year : ℤ) (radix : ℝ) (j : Fin horizon)
    (q l : Fin (n + 1) → ℝ)
    (hval : validateProjYear lastYear horizon year = some j) (hradix : 0 < radix)
    (hq : q = bridgeQx (bridgeMx axv bxv (ktCentralArr kt horizon j)))
    (hl : l = bridgeLx q radix) :
    ltQ l (Fin.last n) = 1 ∧
    (∀ i, 0 ≤ ltQ l i ∧ ltQ l i ≤ 1) ∧
    (∀ (i : ℕ) (hi : i < n), 0 < ltQ l ⟨i, by omega⟩ → 0 < l ⟨i, by omega⟩ →
      l ⟨i + 1, by omega⟩ < l ⟨i, by omega⟩) := by
  subst hq hl
  refine ⟨ltQ_terminal _, ?_, ?_⟩
  · intro i
    by_cases hi : (i : ℕ) < n
    · have hieq : i = ⟨(i : ℕ), by omega⟩ := by
        apply Fin.ext
        rfl
      rw [hieq]
      by_cases hpos : 0 < bridgeLx (bridgeQx (bridgeMx axv bxv (ktCentralArr kt horizon j)))
          radix ⟨(i : ℕ), by omega⟩
      · rw [ltQ_bridge_eq _ _ _ hi hpos]
        exact bridgeQx_bounds _ _
      · unfold ltQ
        rw [dif_pos hi, if_neg hpos]
        norm_num
    · unfold ltQ
      rw [dif_neg hi]
      norm_num
  · intro i hi hq hl
    exact ltQ_pos_strict_decrease _ i hi hq hl

/-- Witness for C6 on a concrete 2-age model at the single in-range year. -/
theorem bridged_lifetable_probabilities_witness :
    validateProjYear 2001 1 2002 = some 0 ∧ (0 : ℝ) < 1 ∧
    (ltQ lxW (Fin.last 1) = 1 ∧
      (∀ i, 0 ≤ ltQ lxW i ∧ ltQ lxW i ≤ 1) ∧
      (∀ (i : ℕ) (hi : i < 1), 0 < ltQ lxW ⟨i, by omega⟩ → 0 < lxW ⟨i, by omega⟩ →
        lxW ⟨i + 1, by omega⟩ < lxW ⟨i, by omega⟩)) :=
  ⟨by decide, one_pos,
    bridged_lifetable_probabilities 1 1 1 (fun _ => 0) (fun _ => 0) ktObsC5 2001 2002 1 0
      qxW lxW (by decide) one_pos rfl rfl⟩

theorem searchsortedCount_eq_of_mem {n : ℕ} (arr : Fin n → ℤ) (hs : StrictMono arr)
    (i : Fin n) : searchsortedCount arr (arr i) = i := by
  unfold searchsortedCount
  have hset : (Finset.univ.filter fun j => arr j < arr i) = Finset.Iio i := by
    ext j
    simp [hs.lt_iff_lt, Finset.mem_Iio]
  rw [hset]
  simpa using Fintype.card_fin_lt_of_le (le_refl i)

theorem validateIdx_of_mem {n : ℕ} (arr : Fin n → ℤ) (hs : StrictMono arr) (i : Fin n) :
    validateIdx arr (arr i) = some i := by
  have hc := searchsortedCount_eq_of_mem arr hs i
  unfold validateIdx
  split_ifs with h1 h2
  · congr 1
    exact Fin.ext hc
  · exact absurd (congrArg arr (Fin.ext hc)) h2
  · exact absurd (hc ▸ i.isLt) h1

theorem validateIdx_isSome_iff {n : ℕ} (arr : Fin n → ℤ) (hs : StrictMono arr) (x : ℤ) :
    (validateIdx arr x).isSome ↔ ∃ i, arr i = x := by
  constructor
  · intro h
    unfold validateIdx at h
    split_ifs at h with h1 h2
    · exact ⟨_, h2⟩
    · simp at h
    · simp at h
  · rintro ⟨i, rfl⟩
    rw [validateIdx_of_mem arr hs i]
    rfl

theorem searchsortedCount_eq_zero {n : ℕ} (arr : Fin n → ℤ) (x : ℤ)
    (h : ∀ i, x ≤ arr i) : searchsortedCount arr x = 0 := by
  unfold searchsortedCount
  rw [Finset.card_eq_zero, Finset.filter_eq_empty_iff]
  intro i _
  exact not_lt.mpr (h i)

theorem projectedYears_strictMono (lastYear : ℤ) (horizon : ℕ) :
    StrictMono (projectedYears lastYear horizon) := by
  intro a b hab
  unfold projectedYears
  have : (a : ℕ) < (b : ℕ) := hab
  omega

theorem validateProjYear_isSome_iff (lastYear : ℤ) (horizon : ℕ) (y : ℤ) :
    (validateProjYear lastYear horizon y).isSome ↔
      lastYear + 1 ≤ y ∧ y ≤ lastYear + horizon := by
  unfold validateProjYear
  rw [validateIdx_isSome_iff _ (projectedYears_strictMono _ _)]
  constructor
  · rintro ⟨h, rfl⟩
    unfold projectedYears
    have := h.isLt
    omega
  · rintro ⟨h1, h2⟩
    refine ⟨⟨(y - (lastYear + 1)).toNat, by omega⟩, ?_⟩
    show lastYear + 1 + ((y - (lastYear + 1)).toNat : ℤ) = y
    omega

theorem getProjectedMx_age_below {n mm : ℕ} (ages2 : Fin n → ℤ) (axv bxv : Fin n → ℝ)
    (kt : Fin (mm + 1) → ℝ) (lastYear : ℤ) (horizon : ℕ) (a y : ℤ) (hn : 0 < n)
    (ha : ∀ i, a ≤ ages2 i) :
    getProjectedMx ages2 axv bxv kt lastYear horizon a y =
      (validateProjYear lastYear horizon y).map fun j =>
        Real.exp (axv ⟨0, hn⟩ + bxv ⟨0, hn⟩ * ktCentralArr kt horizon j) := by
  unfold getProjectedMx
  have hc : searchsortedCount ages2 a = 0 := searchsortedCount_eq_zero _ _ ha
  cases hv : validateProjYear lastYear horizon y with
  | none => rfl
  | some j =>
    have hlt : searchsortedCount ages2 a < n := by omega
    show (if h : searchsortedCount ages2 a < n then
        some (Real.exp (axv ⟨searchsortedCount ages2 a, h⟩ +
          bxv ⟨searchsortedCount ages2 a, h⟩ * ktCentralArr kt horizon j))
      else none) = _
    rw [dif_pos hlt]
    have hidx : (⟨searchsortedCount ages2 a, hlt⟩ : Fin n) = ⟨0, hn⟩ := Fin.ext hc
    rw [hidx]
    rfl

/-- C5 (amended): the `MortalityData` accessors and the projection-year check
fail exactly on absent keys; `get_projected_mx` validates only the year — for
any requested age at or below every model age it silently returns the first
age's rate whenever the year is in range, instead of raising. -/
theorem accessors_out_of_range (na ny n hor mm : ℕ) (mx : Matrix (Fin na) (Fin ny) ℝ)
    (ages : Fin na → ℤ) (years : Fin ny → ℤ) (ages2 : Fin n → ℤ)
    (axv bxv : Fin n → ℝ) (kt : Fin (mm + 1) → ℝ) (lastYear : ℤ)
    (hA : StrictMono ages) (hY : StrictMono years) (hn : 0 < n) :
    (∀ a y, (getMx mx ages years a y).isSome ↔ (∃ i, ages i = a) ∧ (∃ j, years j = y)) ∧
    (∀ y, (yearSlice mx years y).isSome ↔ ∃ j, years j = y) ∧
    (∀ a, (ageSlice mx ages a).isSome ↔ ∃ i, ages i = a) ∧
    (∀ y, (validateProjYear lastYear hor y).isSome ↔
      lastYear + 1 ≤ y ∧ y ≤ lastYear + hor) ∧
    (∀ a y, (∀ i, a ≤ ages2 i) →
      getProjectedMx ages2 axv bxv kt lastYear hor a y =
        (validateProjYear lastYear hor y).map fun j =>
          Real.exp (axv ⟨0, hn⟩ + bxv ⟨0, hn⟩ * ktCentralArr kt hor j)) := by
  refine ⟨?_, ?_, ?_, fun y => validateProjYear_isSome_iff lastYear hor y,
    fun a y ha => getProjectedMx_age_below ages2 axv bxv kt lastYear hor a y hn ha⟩
  · intro a y
    unfold getMx
    rw [← validateIdx_isSome_iff ages hA a, ← validateIdx_isSome_iff years hY y]
    cases validateIdx ages a <;> cases validateIdx years y <;> simp
  · intro y
    unfold yearSlice
    rw [← validateIdx_isSome_iff years hY y]
    cases validateIdx years y <;> simp
  · intro a
    unfold ageSlice
    rw [← validateIdx_isSome_iff ages hA a]
    cases validateIdx ages a <;> simp

/-- Witness for the amended C5 on a concrete 2-age, 1-projected-year model. -/
theorem accessors_out_of_range_witness :
    (StrictMono agesC5 ∧ (0 : ℕ) < 2) ∧
    ((getMx (1 : Matrix (Fin 2) (Fin 2) ℝ) agesC5 agesC5 19 20).isSome ↔
      (∃ i, agesC5 i = 19) ∧ (∃ j, agesC5 j = 20)) ∧
    ((validateProjYear 2001 1 2002).isSome ↔
      (2001 : ℤ) + 1 ≤ 2002 ∧ (2002 : ℤ) ≤ 2001 + (1 : ℕ)) := by
  have hs : StrictMono agesC5 := by
    intro a b hab
    fin_cases a <;> fin_cases b <;> simp_all [agesC5] <;> omega
  have h := accessors_out_of_range 2 2 2 1 1 (1 : Matrix (Fin 2) (Fin 2) ℝ)
    agesC5 agesC5 agesC5 (fun _ => 0) (fun _ => 0) ktObsC5 2001 hs hs (by norm_num)
  exact ⟨⟨hs, by norm_num⟩, h.1 19 20, h.2.2.2.1 2002⟩

/-- C5 is refuted on `get_projected_mx`: age 19 is not among the model ages
`(20, 21)`, yet the call silently returns the first age's rate instead of
raising an out-of-range error. -/
theorem projected_age_not_validated :
    agesC5 0 ≠ 19 ∧ agesC5 1 ≠ 19 ∧
    getProjectedMx agesC5 (fun _ => 0) (fun _ => 0) ktObsC5 2001 1 19 2002 = some 1 := by
  refine ⟨by decide, by decide, ?_⟩
  · have h := getProjectedMx_age_below agesC5 (fun _ => (0 : ℝ)) (fun _ => 0) ktObsC5
      2001 1 19 2002 (by norm_num) (by decide)
    rw [h]
    have hv : validateProjYear 2001 1 2002 = some 0 := by decide
    rw [hv]
    simp

theorem diagonal_mulVec_apply {n : ℕ} (w v : Fin n → ℝ) (i : Fin n) :
    (Matrix.diagonal w).mulVec v i = w i * v i :=
  Matrix.mulVec_diagonal w v i

theorem diffMatrix1_mulVec {n : ℕ} (v : Fin n → ℝ) (i : Fin (n - 1)) :
    (diffMatrix1 n).mulVec v i = v ⟨(i : ℕ), by omega⟩ - v ⟨(i : ℕ) + 1, by omega⟩ := by
  have hterm : ∀ j : Fin n, diffMatrix1 n i j * v j =
      (if (⟨(i : ℕ), by omega⟩ : Fin n) = j then v j else 0) +
      (if (⟨(i : ℕ) + 1, by omega⟩ : Fin n) = j then -v j else 0) := by
    intro j
    unfold diffMatrix1
    rw [Matrix.of_apply]
    simp only [Fin.ext_iff, Fin.val_mk]
    split_ifs <;> (first | ring1 | (exfalso; omega))
  show (∑ j, diffMatrix1 n i j * v j) = _
  rw [Finset.sum_congr rfl fun j _ => hterm j, Finset.sum_add_distrib,
    Finset.sum_ite_eq Finset.univ, Finset.sum_ite_eq Finset.univ]
  simp only [Finset.mem_univ, if_true]
  ring

theorem buildDiff_zero_mulVec {n : ℕ} (v : Fin n → ℝ) (i : Fin (n - 0)) :
    (buildDifferenceMatrix n 0).mulVec v i = v ⟨(i : ℕ), by omega⟩ := by
  have hterm : ∀ j : Fin n, buildDifferenceMatrix n 0 i j * v j =
      (if (⟨(i : ℕ), by omega⟩ : Fin n) = j then v j else 0) := by
    intro j
    show (if (i : ℕ) = (j : ℕ) then (1 : ℝ) else 0) * v j = _
    simp only [Fin.ext_iff, Fin.val_mk]
    split_ifs <;> (first | ring1 | (exfalso; omega))
  show (∑ j, buildDifferenceMatrix n 0 i j * v j) = _
  rw [Finset.sum_congr rfl fun j _ => hterm j, Finset.sum_ite_eq Finset.univ]
  simp

theorem buildDiff_one_mulVec {n : ℕ} (v : Fin n → ℝ) (i : Fin (n - 1)) :
    (buildDifferenceMatrix n 1).mulVec v i = v ⟨(i : ℕ), by omega⟩ - v ⟨(i : ℕ) + 1, by omega⟩ := by
  show (diffMatrix1 (n - 0) * buildDifferenceMatrix n 0).mulVec v i = _
  rw [← Matrix.mulVec_mulVec, diffMatrix1_mulVec, buildDiff_zero_mulVec, buildDiff_zero_mulVec]

theorem buildDiff_two_mulVec {n : ℕ} (v : Fin n → ℝ) (i : Fin (n - 2)) :
    (buildDifferenceMatrix n 2).mulVec v i = secondDiff v i := by
  show (diffMatrix1 (n - 1) * buildDifferenceMatrix n 1).mulVec v i = _
  rw [← Matrix.mulVec_mulVec, diffMatrix1_mulVec, buildDiff_one_mulVec, buildDiff_one_mulVec]
  unfold secondDiff
  ring

theorem wh_penalty_le {n : ℕ} (lam : ℝ) (w m z : Fin n → ℝ) (hlam : 0 ≤ lam)
    (hw : ∀ i, 0 < w i) (hz : whSystem lam w m z) :
    Matrix.dotProduct ((buildDifferenceMatrix n 2).mulVec z) ((buildDifferenceMatrix n 2).mulVec z) ≤
      Matrix.dotProduct ((buildDifferenceMatrix n 2).mulVec m) ((buildDifferenceMatrix n 2).mulVec m) := by
  set D := buildDifferenceMatrix n 2 with hD
  unfold whSystem whMatrix at hz
  rw [← hD] at hz
  have hz' : ∀ i, w i * z i + lam * ((D.transpose * D).mulVec z i) = w i * m i := by
    intro i
    have h := congrFun hz i
    rw [Matrix.add_mulVec] at h
    simpa [Matrix.smul_mulVec_assoc, diagonal_mulVec_apply] using h
  rcases eq_or_lt_of_le hlam with h0 | hpos
  · have hzm : z = m := by
      funext i
      have h := hz' i
      rw [← h0] at h
      have hwi := hw i
      have : w i * z i = w i * m i := by linarith
      exact mul_left_cancel₀ hwi.ne' this
    rw [hzm]
  · set d := fun i => m i - z i with hd
    have hWd : ∀ i, lam * ((D.transpose * D).mulVec z i) = w i * d i := by
      intro i
      have h := hz' i
      simp only [hd]
      nlinarith [h]
    have hDm : D.mulVec m = D.mulVec z + D.mulVec d := by
      have hmzd : m = z + d := by
        funext i
        simp [hd]
      rw [hmzd, Matrix.mulVec_add]
    have hdot : Matrix.dotProduct (D.mulVec z) (D.mulVec d) = Matrix.dotProduct ((D.transpose * D).mulVec z) d := by
      rw [Matrix.dotProduct_mulVec, ← Matrix.mulVec_transpose, Matrix.mulVec_mulVec]
    have hcross : lam * Matrix.dotProduct (D.mulVec z) (D.mulVec d) = Matrix.dotProduct (fun i => w i * d i) d := by
      rw [hdot]
      unfold Matrix.dotProduct
      rw [Finset.mul_sum]
      apply Finset.sum_congr rfl
      intro i _
      calc lam * ((D.transpose * D).mulVec z i * d i)
          = (lam * (D.transpose * D).mulVec z i) * d i := by ring
        _ = w i * d i * d i := by rw [hWd i]
    have hwd : 0 ≤ Matrix.dotProduct (fun i => w i * d i) d := by
      apply Finset.sum_nonneg
      intro i _
      show 0 ≤ w i * d i * d i
      have hwi := (hw i).le
      nlinarith [sq_nonneg (d i)]
    have hdd : 0 ≤ Matrix.dotProduct (D.mulVec d) (D.mulVec d) :=
      Finset.sum_nonneg fun i _ => mul_self_nonneg _
    have hexp : Matrix.dotProduct (D.mulVec m) (D.mulVec m) =
        Matrix.dotProduct (D.mulVec z) (D.mulVec z) +
          2 * Matrix.dotProduct (D.mulVec z) (D.mulVec d) +
          Matrix.dotProduct (D.mulVec d) (D.mulVec d) := by
      rw [hDm, Matrix.add_dotProduct, Matrix.dotProduct_add, Matrix.dotProduct_add,
        Matrix.dotProduct_comm (D.mulVec d) (D.mulVec z)]
      ring
    have hle : lam * Matrix.dotProduct (D.mulVec z) (D.mulVec z) ≤
        lam * Matrix.dotProduct (D.mulVec m) (D.mulVec m) := by
      have hkey : lam * Matrix.dotProduct (D.mulVec m) (D.mulVec m) -
          lam * Matrix.dotProduct (D.mulVec z) (D.mulVec z) =
          2 * Matrix.dotProduct (fun i => w i * d i) d +
            lam * Matrix.dotProduct (D.mulVec d) (D.mulVec d) := by
        calc lam * Matrix.dotProduct (D.mulVec m) (D.mulVec m) -
            lam * Matrix.dotProduct (D.mulVec z) (D.mulVec z)
            = 2 * (lam * Matrix.dotProduct (D.mulVec z) (D.mulVec d)) +
              lam * Matrix.dotProduct (D.mulVec d) (D.mulVec d) := by
              rw [hexp]
              ring
          _ = 2 * Matrix.dotProduct (fun i => w i * d i) d +
              lam * Matrix.dotProduct (D.mulVec d) (D.mulVec d) := by
              rw [hcross]
      have hpen : 0 ≤ lam * Matrix.dotProduct (D.mulVec d) (D.mulVec d) := mul_nonneg hlam hdd
      linarith
    exact le_of_mul_le_mul_left hle hpos

theorem roughness_eq_sum {na ny : ℕ} (rates : Matrix (Fin na) (Fin ny) ℝ) :
    roughness rates = ∑ j,
      Matrix.dotProduct ((buildDifferenceMatrix na 2).mulVec (fun x => Real.log (rates x j)))
        ((buildDifferenceMatrix na 2).mulVec (fun x => Real.log (rates x j))) := by
  unfold roughness Matrix.dotProduct
  apply Finset.sum_congr rfl
  intro j _
  apply Finset.sum_congr rfl
  intro i _
  rw [buildDiff_two_mulVec]
  ring

/-- C2: for every validated dataset and every smoothing parameter
`lambda >= 0`, with the constructor's difference order (2) and either weight
choice, the log-space roughness of the graduated surface is at most the
roughness of the raw surface. -/
theorem graduation_reduces_roughness {na ny : ℕ} (lam : ℝ) (wbe : Bool)
    (mx dx ex z : Matrix (Fin na) (Fin ny) ℝ) (hvalid : ValidMortalityData mx dx ex)
    (hlam : 0 ≤ lam) (hgrad : graduationOk lam wbe ex mx z) :
    roughness (graduatedMx z) ≤ roughness mx := by
  rw [roughness_eq_sum, roughness_eq_sum]
  apply Finset.sum_le_sum
  intro j _
  have hw : ∀ x, 0 < gradWeights wbe ex j x := by
    intro x
    unfold gradWeights
    cases wbe
    · simp
    · simpa using hvalid.2.1 x j
  have hcol : (fun x => Real.log (graduatedMx z x j)) = fun x => z x j := by
    funext x
    show Real.log (Real.exp (z x j)) = z x j
    exact Real.log_exp _
  rw [hcol]
  exact wh_penalty_le lam (gradWeights wbe ex j) (fun x => Real.log (mx x j))
    (fun x => z x j) hlam hw (hgrad j)

/-- Witness for C2 on a concrete 3-age, 1-year dataset with `lambda = 0` and
uniform weights. -/
theorem graduation_reduces_roughness_witness :
    (ValidMortalityData (fun _ _ => 1 : Matrix (Fin 3) (Fin 1) ℝ) (fun _ _ => 1)
        (fun _ _ => 1) ∧ (0 : ℝ) ≤ 0 ∧
      graduationOk 0 false (fun _ _ => 1 : Matrix (Fin 3) (Fin 1) ℝ) (fun _ _ => 1)
        (fun _ _ => 0)) ∧
    roughness (graduatedMx (fun _ _ => 0 : Matrix (Fin 3) (Fin 1) ℝ)) ≤
      roughness (fun _ _ => 1 : Matrix (Fin 3) (Fin 1) ℝ) := by
  have hvalid : ValidMortalityData (fun _ _ => 1 : Matrix (Fin 3) (Fin 1) ℝ)
      (fun _ _ => 1) (fun _ _ => 1) :=
    ⟨fun _ _ => one_pos, fun _ _ => one_pos, fun _ _ => by norm_num⟩
  have hgrad : graduationOk 0 false (fun _ _ => 1 : Matrix (Fin 3) (Fin 1) ℝ)
      (fun _ _ => 1) (fun _ _ => 0) := by
    intro j
    unfold whSystem
    have h1 : (fun x : Fin 3 => ((fun _ _ => (0 : ℝ)) : Matrix (Fin 3) (Fin 1) ℝ) x j) =
        (0 : Fin 3 → ℝ) := rfl
    have h2 : (fun x : Fin 3 =>
        Real.log (((fun _ _ => (1 : ℝ)) : Matrix (Fin 3) (Fin 1) ℝ) x j)) =
        (0 : Fin 3 → ℝ) := by
      funext x
      exact Real.log_one
    rw [h1, h2, Matrix.mulVec_zero, Matrix.mulVec_zero]
  exact ⟨⟨hvalid, le_refl 0, hgrad⟩,
    graduation_reduces_roughness 0 false _ _ _ _ hvalid (le_refl 0) hgrad⟩

/-- C7: for every validated dataset (strictly positive rates and weights),
graduation with `lambda = 0` reproduces the raw surface exactly. -/
theorem lambda_zero_is_identity {na ny : ℕ} (wbe : Bool)
    (mx dx ex z : Matrix (Fin na) (Fin ny) ℝ) (hvalid : ValidMortalityData mx dx ex)
    (hgrad : graduationOk 0 wbe ex mx z) :
    graduatedMx z = mx := by
  ext x j
  have h := hgrad j
  unfold whSystem whMatrix at h
  have h' := congrFun h x
  rw [Matrix.add_mulVec] at h'
  simp only [Matrix.smul_mulVec_assoc, zero_smul, Matrix.zero_mulVec, Pi.add_apply,
    Pi.zero_apply, add_zero, diagonal_mulVec_apply] at h'
  have hw : 0 < gradWeights wbe ex j x := by
    unfold gradWeights
    cases wbe
    · simp
    · simpa using hvalid.2.1 x j
  have hz : z x j = Real.log (mx x j) := mul_left_cancel₀ hw.ne' h'
  show Real.exp (z x j) = mx x j
  rw [hz, Real.exp_log (hvalid.1 x j)]

/-- Witness for C7 on a concrete 3-age, 1-year dataset with exposure
weighting. -/
theorem lambda_zero_is_identity_witness :
    (ValidMortalityData (fun _ _ => 1 : Matrix (Fin 3) (Fin 1) ℝ) (fun _ _ => 1)
        (fun _ _ => 1) ∧
      graduationOk 0 true (fun _ _ => 1 : Matrix (Fin 3) (Fin 1) ℝ) (fun _ _ => 1)
        (fun _ _ => 0)) ∧
    graduatedMx (fun _ _ => 0 : Matrix (Fin 3) (Fin 1) ℝ) =
      (fun _ _ => 1 : Matrix (Fin 3) (Fin 1) ℝ) := by
  have hvalid : ValidMortalityData (fun _ _ => 1 : Matrix (Fin 3) (Fin 1) ℝ)
      (fun _ _ => 1) (fun _ _ => 1) :=
    ⟨fun _ _ => one_pos, fun _ _ => one_pos, fun _ _ => by norm_num⟩
  have hgrad : graduationOk 0 true (fun _ _ => 1 : Matrix (Fin 3) (Fin 1) ℝ)
      (fun _ _ => 1) (fun _ _ => 0) := by
    intro j
    unfold whSystem
    have h1 : (fun x : Fin 3 => ((fun _ _ => (0 : ℝ)) : Matrix (Fin 3) (Fin 1) ℝ) x j) =
        (0 : Fin 3 → ℝ) := rfl
    have h2 : (fun x : Fin 3 =>
        Real.log (((fun _ _ => (1 : ℝ)) : Matrix (Fin 3) (Fin 1) ℝ) x j)) =
        (0 : Fin 3 → ℝ) := by
      funext x
      exact Real.log_one
    rw [h1, h2, Matrix.mulVec_zero, Matrix.mulVec_zero]
  exact ⟨⟨hvalid, hgrad⟩, lambda_zero_is_identity true _ _ _ _ hvalid hgrad⟩

theorem buildDiff_two_const {n : ℕ} (c : ℝ) :
    (buildDifferenceMatrix n 2).mulVec (fun _ => c) = 0 := by
  funext i
  rw [buildDiff_two_mulVec]
  unfold secondDiff
  simp
  ring

theorem whSystem_zero_weights_const {n : ℕ} (lam : ℝ) (m : Fin n → ℝ) (c : ℝ) :
    whSystem lam (fun _ => 0) m (fun _ => c) := by
  unfold whSystem whMatrix
  funext i
  rw [Matrix.add_mulVec]
  have hMz : ((buildDifferenceMatrix n 2).transpose * buildDifferenceMatrix n 2).mulVec
      (fun _ => c) = 0 := by
    rw [← Matrix.mulVec_mulVec, buildDiff_two_const, Matrix.mulVec_zero]
  rw [Matrix.smul_mulVec_assoc, hMz]
  simp [diagonal_mulVec_apply]

/-- C3 is a code bug: when the weight vector of a year is all zeros (for
example a zero exposure column with `weight_by_exposure=True`), the linear
system the code hands to `spsolve` is singular — every constant log-rate
vector satisfies it — so the construction has no well-defined finite result;
the source contains no degeneracy check whatsoever, and in that situation
`spsolve` emits only a warning and silently returns non-finite values rather
than raising an error naming the degeneracy. -/
theorem zero_weights_not_rejected :
    graduationOk 1 true (fun _ _ => 0 : Matrix (Fin 3) (Fin 1) ℝ)
      (fun _ _ => Real.exp 1) (fun _ _ => 0) ∧
    graduationOk 1 true (fun _ _ => 0 : Matrix (Fin 3) (Fin 1) ℝ)
      (fun _ _ => Real.exp 1) (fun _ _ => 1) ∧
    ((fun _ _ => 0 : Matrix (Fin 3) (Fin 1) ℝ) ≠ fun _ _ => 1) := by
  refine ⟨fun j => ?_, fun j => ?_, fun h => ?_⟩
  · exact whSystem_zero_weights_const 1 _ 0
  · exact whSystem_zero_weights_const 1 _ 1
  · have := congrFun (congrFun h 0) 0
    norm_num at this

theorem sqrt5_sq : Real.sqrt 5 * Real.sqrt 5 = 5 := Real.mul_self_sqrt (by norm_num)

theorem sqrt2_sq : Real.sqrt 2 * Real.sqrt 2 = 2 := Real.mul_self_sqrt (by norm_num)

theorem sqrt5_pos : 0 < Real.sqrt 5 := Real.sqrt_pos.mpr (by norm_num)

theorem sqrt2_pos : 0 < Real.sqrt 2 := Real.sqrt_pos.mpr (by norm_num)

theorem sqrt10_eq : Real.sqrt 10 = Real.sqrt 5 * Real.sqrt 2 := by
  rw [← Real.sqrt_mul (by norm_num : (0 : ℝ) ≤ 5) 2]
  norm_num

theorem fitC1_logMx : logMxOf mxC1 = logMxC1 := by
  ext x t
  show Real.log (Real.exp (logMxC1 x t)) = logMxC1 x t
  exact Real.log_exp _

theorem fitC1_rowMean : rowMean (logMxOf mxC1) = ![0, 15 / 2] := by
  rw [fitC1_logMx]
  funext x
  unfold rowMean
  fin_cases x <;> norm_num [logMxC1, Fin.sum_univ_two]

theorem fitC1_residual : residualOf (logMxOf mxC1) = !![5, -5; -(5 / 2), 5 / 2] := by
  ext x t
  show logMxOf mxC1 x t - rowMean (logMxOf mxC1) x = _
  rw [fitC1_rowMean, fitC1_logMx]
  fin_cases x <;> fin_cases t <;> norm_num [logMxC1]

theorem diagonal_fin_two (a b : ℝ) : Matrix.diagonal ![a, b] = !![a, 0; 0, b] := by
  ext i j
  fin_cases i <;> fin_cases j <;>
    simp [Matrix.diagonal_apply]

theorem transpose_fin_two (a b c d : ℝ) : (!![a, b; c, d]).transpose = !![a, c; b, d] := by
  ext i j
  fin_cases i <;> fin_cases j <;> rfl

theorem fitC1_svd : residualOf (logMxOf mxC1) = UC1 * Matrix.diagonal SC1 * VtC1 := by
  rw [fitC1_residual]
  unfold UC1 SC1 VtC1
  rw [sqrt10_eq, diagonal_fin_two, Matrix.mul_fin_two, Matrix.mul_fin_two]
  have h5 := sqrt5_pos.ne'
  have h2 := sqrt2_pos.ne'
  ext x t
  fin_cases x <;> fin_cases t <;>
    simp only [Matrix.cons_val_zero, Matrix.cons_val_one, Matrix.head_cons] <;>
    field_simp <;> ring

theorem fitC1_orthU : UC1.transpose * UC1 = 1 := by
  unfold UC1
  rw [transpose_fin_two, Matrix.mul_fin_two, Matrix.one_fin_two]
  have h5 := sqrt5_pos.ne'
  have h5s := sqrt5_sq
  ext x t
  fin_cases x <;> fin_cases t <;>
    simp only [Matrix.cons_val_zero, Matrix.cons_val_one, Matrix.head_cons] <;>
    field_simp <;> (first | ring1 | nlinarith [h5s])

theorem fitC1_orthV : VtC1 * VtC1.transpose = 1 := by
  unfold VtC1
  rw [transpose_fin_two, Matrix.mul_fin_two, Matrix.one_fin_two]
  have h2 := sqrt2_pos.ne'
  have h2s := sqrt2_sq
  ext x t
  fin_cases x <;> fin_cases t <;>
    simp only [Matrix.cons_val_zero, Matrix.cons_val_one, Matrix.head_cons] <;>
    field_simp <;> (first | ring1 | nlinarith [h2s])

theorem validC1 : ValidMortalityData mxC1 dxC1 exC1 := by
  refine ⟨fun x t => Real.exp_pos _, fun x t => ?_, fun x t => ?_⟩
  · fin_cases x <;> fin_cases t <;> norm_num [exC1]
  · have hex : exC1 x t ≠ 0 := by
      fin_cases x <;> fin_cases t <;> norm_num [exC1]
    have hdx : dxC1 x t = exC1 x t * mxC1 x t := rfl
    rw [hdx, mul_div_cancel_left₀ _ hex, sub_self, abs_zero, zero_div]
    norm_num

theorem fitC1_bxSumRaw : fitC1.bxSumRaw = 1 / Real.sqrt 5 := by
  unfold LCFit.bxSumRaw LCFit.bxRaw
  rw [Fin.sum_univ_two]
  show UC1 0 0 + UC1 1 0 = _
  norm_num [UC1]
  ring

theorem fitC1_bxSumRaw_pos : 0 < fitC1.bxSumRaw := by
  rw [fitC1_bxSumRaw]
  positivity

theorem fitC1_bxFinal : fitC1.bxFinal = ![2, -1] := by
  funext x
  unfold LCFit.bxFinal
  simp only [if_neg (not_lt.mpr fitC1_bxSumRaw_pos.le)]
  rw [fitC1_bxSumRaw]
  have h5 := sqrt5_pos.ne'
  fin_cases x
  · show UC1 0 0 / (1 / Real.sqrt 5) = 2
    rw [show UC1 0 0 = 2 / Real.sqrt 5 from by norm_num [UC1]]
    field_simp
  · show UC1 1 0 / (1 / Real.sqrt 5) = -1
    rw [show UC1 1 0 = -(1 / Real.sqrt 5) from by norm_num [UC1]]
    field_simp

theorem fitC1_ktScaled : fitC1.ktScaled = ![5 / 2, -(5 / 2)] := by
  funext t
  unfold LCFit.ktScaled LCFit.ktRaw
  simp only [if_neg (not_lt.mpr fitC1_bxSumRaw_pos.le)]
  rw [fitC1_bxSumRaw]
  have h5 := sqrt5_pos.ne'
  have h2 := sqrt2_pos.ne'
  fin_cases t
  · show SC1 0 * VtC1 0 0 * (1 / Real.sqrt 5) = 5 / 2
    rw [show SC1 0 = 5 / 2 * Real.sqrt 10 from by norm_num [SC1],
      show VtC1 0 0 = 1 / Real.sqrt 2 from by norm_num [VtC1], sqrt10_eq]
    field_simp
    ring
  · show SC1 0 * VtC1 0 1 * (1 / Real.sqrt 5) = -(5 / 2)
    rw [show SC1 0 = 5 / 2 * Real.sqrt 10 from by norm_num [SC1],
      show VtC1 0 1 = -(1 / Real.sqrt 2) from by norm_num [VtC1], sqrt10_eq]
    field_simp
    ring

theorem fitC1_ktOffset : fitC1.ktOffset = 0 := by
  unfold LCFit.ktOffset
  rw [Fin.sum_univ_two, fitC1_ktScaled]
  norm_num

theorem fitC1_ax1 : fitC1.ax1 = ![0, 15 / 2] := by
  funext x
  unfold LCFit.ax1
  show rowMean (logMxOf mxC1) x + fitC1.bxFinal x * fitC1.ktOffset = _
  rw [fitC1_rowMean, fitC1_ktOffset, mul_zero, add_zero]

theorem fitC1_obs0 : fitC1.obsDeaths 0 = 3 * Real.exp 5 := by
  unfold LCFit.obsDeaths
  rw [Fin.sum_univ_two]
  show exC1 0 0 * Real.exp (logMxC1 0 0) + exC1 1 0 * Real.exp (logMxC1 1 0) = _
  norm_num [exC1, logMxC1]
  ring

theorem fitC1_obs1 : fitC1.obsDeaths 1 = Real.exp (-5) + 2 * Real.exp 10 := by
  unfold LCFit.obsDeaths
  rw [Fin.sum_univ_two]
  show exC1 0 1 * Real.exp (logMxC1 0 1) + exC1 1 1 * Real.exp (logMxC1 1 1) = _
  norm_num [exC1, logMxC1]

theorem fitC1_fy0 (k : ℝ) : fitC1.yearResidual 0 k =
    Real.exp (2 * k) + 2 * Real.exp (15 / 2 - k) - 3 * Real.exp 5 := by
  unfold LCFit.yearResidual deathResidual
  rw [fitC1_obs0, Fin.sum_univ_two, fitC1_ax1, fitC1_bxFinal]
  have h1 : (![(0 : ℝ), 15 / 2] 0) + (![(2 : ℝ), -1] 0) * k = 2 * k := by
    norm_num
  have h2 : (![(0 : ℝ), 15 / 2] 1) + (![(2 : ℝ), -1] 1) * k = 15 / 2 - k := by
    norm_num
    ring
  rw [h1, h2]
  show exC1 0 0 * Real.exp (2 * k) + exC1 1 0 * Real.exp (15 / 2 - k) - 3 * Real.exp 5 = _
  norm_num [exC1]

theorem fitC1_fy1 (k : ℝ) : fitC1.yearResidual 1 k =
    Real.exp (2 * k) + 2 * Real.exp (15 / 2 - k) - (Real.exp (-5) + 2 * Real.exp 10) := by
  unfold LCFit.yearResidual deathResidual
  rw [fitC1_obs1, Fin.sum_univ_two, fitC1_ax1, fitC1_bxFinal]
  have h1 : (![(0 : ℝ), 15 / 2] 0) + (![(2 : ℝ), -1] 0) * k = 2 * k := by
    norm_num
  have h2 : (![(0 : ℝ), 15 / 2] 1) + (![(2 : ℝ), -1] 1) * k = 15 / 2 - k := by
    norm_num
    ring
  rw [h1, h2]
  show exC1 0 1 * Real.exp (2 * k) + exC1 1 1 * Real.exp (15 / 2 - k) -
      (Real.exp (-5) + 2 * Real.exp 10) = _
  norm_num [exC1]

theorem exp_five_half_ge : (7 / 2 : ℝ) ≤ Real.exp (5 / 2) := by
  have h := Real.add_one_le_exp ((5 : ℝ) / 2)
  linarith

theorem exp_five_ge : (6 : ℝ) ≤ Real.exp 5 := by
  have h := Real.add_one_le_exp (5 : ℝ)
  linarith

theorem exp_fifteen_half_ge : (1 : ℝ) ≤ Real.exp (15 / 2) := by
  have h := Real.add_one_le_exp ((15 : ℝ) / 2)
  linarith

theorem exp_neg_five_le : Real.exp (-5) ≤ 1 := by
  rw [show (1 : ℝ) = Real.exp 0 from (Real.exp_zero).symm]
  exact Real.exp_le_exp.mpr (by norm_num)

theorem f0_pos_of_nonpos (k : ℝ) (hk : k ≤ 0) : 0 < fitC1.yearResidual 0 k := by
  rw [fitC1_fy0]
  have h1 : Real.exp (15 / 2) ≤ Real.exp (15 / 2 - k) := Real.exp_le_exp.mpr (by linarith)
  have h3 : Real.exp (15 / 2) = Real.exp (5 / 2) * Real.exp 5 := by
    rw [← Real.exp_add]
    norm_num
  have h2 := exp_five_half_ge
  have h4 : 0 < Real.exp (2 * k) := Real.exp_pos _
  have h5 : (0 : ℝ) < Real.exp 5 := Real.exp_pos _
  nlinarith

theorem f0_pos_of_ge_five (k : ℝ) (hk : 5 ≤ k) : 0 < fitC1.yearResidual 0 k := by
  rw [fitC1_fy0]
  have h1 : Real.exp 10 ≤ Real.exp (2 * k) := Real.exp_le_exp.mpr (by linarith)
  have h3 : Real.exp 10 = Real.exp 5 * Real.exp 5 := by
    rw [← Real.exp_add]
    norm_num
  have h2 := exp_five_ge
  have h4 : 0 < Real.exp (15 / 2 - k) := Real.exp_pos _
  have h5 : (0 : ℝ) < Real.exp 5 := Real.exp_pos _
  nlinarith

theorem f0_zero_eq : fitC1.yearResidual 0 0 =
    1 + 2 * Real.exp (15 / 2) - 3 * Real.exp 5 := by
  rw [fitC1_fy0]
  norm_num [Real.exp_zero]

theorem f0_lt_of_le_neg_five (k : ℝ) (hk : k ≤ -5) :
    fitC1.yearResidual 0 0 < fitC1.yearResidual 0 k := by
  rw [f0_zero_eq, fitC1_fy0]
  have h1 : Real.exp (25 / 2) ≤ Real.exp (15 / 2 - k) := Real.exp_le_exp.mpr (by linarith)
  have h3 : Real.exp (25 / 2) = Real.exp 5 * Real.exp (15 / 2) := by
    rw [← Real.exp_add]
    norm_num
  have h2 := exp_five_ge
  have h6 := exp_fifteen_half_ge
  have h4 : 0 < Real.exp (2 * k) := Real.exp_pos _
  nlinarith

theorem f0_le_of_ge_five (k : ℝ) (hk : 5 ≤ k) :
    fitC1.yearResidual 0 0 ≤ fitC1.yearResidual 0 k := by
  rw [f0_zero_eq, fitC1_fy0]
  have h1 : Real.exp 10 ≤ Real.exp (2 * k) := Real.exp_le_exp.mpr (by linarith)
  have h3 : Real.exp 10 = Real.exp (5 / 2) * Real.exp (15 / 2) := by
    rw [← Real.exp_add]
    norm_num
  have h2 := exp_five_half_ge
  have h6 := exp_fifteen_half_ge
  have h4 : 0 < Real.exp (15 / 2 - k) := Real.exp_pos _
  nlinarith

theorem fitC1_f1_root : fitC1.yearResidual 1 (-(5 / 2)) = 0 := by
  rw [fitC1_fy1]
  have h1 : (2 : ℝ) * (-(5 / 2)) = -5 := by ring
  have h2 : (15 : ℝ) / 2 - (-(5 / 2)) = 10 := by ring
  rw [h1, h2]
  ring

theorem f1_pos_of_le_neg_five (k : ℝ) (hk : k ≤ -5) : 0 < fitC1.yearResidual 1 k := by
  rw [fitC1_fy1]
  have h1 : Real.exp (25 / 2) ≤ Real.exp (15 / 2 - k) := Real.exp_le_exp.mpr (by linarith)
  have h3 : Real.exp (25 / 2) = Real.exp (5 / 2) * Real.exp 10 := by
    rw [← Real.exp_add]
    norm_num
  have h2 := exp_five_half_ge
  have h5 := exp_neg_five_le
  have h4 : 0 < Real.exp (2 * k) := Real.exp_pos _
  have h6 : (0 : ℝ) < Real.exp 10 := Real.exp_pos _
  have h7 : (1 : ℝ) ≤ Real.exp 10 := Real.one_le_exp (by norm_num)
  nlinarith [mul_le_mul_of_nonneg_right h2 h6.le]

theorem f1_neg_at_zero : fitC1.yearResidual 1 0 < 0 := by
  rw [fitC1_fy1]
  norm_num [Real.exp_zero]
  have h3 : Real.exp 10 = Real.exp (5 / 2) * Real.exp (15 / 2) := by
    rw [← Real.exp_add]
    norm_num
  have h2 := exp_five_half_ge
  have h6 := exp_fifteen_half_ge
  have h5 : 0 < Real.exp (-5) := Real.exp_pos _
  nlinarith

theorem f1_pos_of_ge_ten (k : ℝ) (hk : 10 ≤ k) : 0 < fitC1.yearResidual 1 k := by
  rw [fitC1_fy1]
  have h1 : Real.exp 20 ≤ Real.exp (2 * k) := Real.exp_le_exp.mpr (by linarith)
  have h3 : Real.exp 20 = Real.exp 10 * Real.exp 10 := by
    rw [← Real.exp_add]
    norm_num
  have hege : (6 : ℝ) ≤ Real.exp 10 := le_trans exp_five_ge (Real.exp_le_exp.mpr (by norm_num))
  have h5 := exp_neg_five_le
  have h4 : 0 < Real.exp (15 / 2 - k) := Real.exp_pos _
  nlinarith

theorem kCand_le_neg_five (i : Fin 201) (h : (i : ℕ) ≤ 99) : kCandidates i ≤ -5 := by
  unfold kCandidates
  have hc : ((i : ℕ) : ℝ) ≤ 99 := by exact_mod_cast h
  linarith

theorem kCand_le_zero (i : Fin 201) (h : (i : ℕ) ≤ 100) : kCandidates i ≤ 0 := by
  unfold kCandidates
  have hc : ((i : ℕ) : ℝ) ≤ 100 := by exact_mod_cast h
  linarith

theorem kCand_ge_five (i : Fin 201) (h : 101 ≤ (i : ℕ)) : 5 ≤ kCandidates i := by
  unfold kCandidates
  have hc : (101 : ℝ) ≤ ((i : ℕ) : ℝ) := by exact_mod_cast h
  linarith

theorem kCand_100 : kCandidates ⟨100, by norm_num⟩ = 0 := by
  unfold kCandidates
  norm_num

theorem kCand_99 : kCandidates ⟨99, by norm_num⟩ = -5 := by
  unfold kCandidates
  norm_num

theorem f0_grid_pos (i : Fin 201) : 0 < fitC1.yearResidual 0 (kCandidates i) := by
  rcases le_or_lt ((i : ℕ)) 100 with h | h
  · exact f0_pos_of_nonpos _ (kCand_le_zero i h)
  · exact f0_pos_of_ge_five _ (kCand_ge_five i h)

theorem f0_min_at_100 (i : Fin 201) :
    |fitC1.yearResidual 0 (kCandidates ⟨100, by norm_num⟩)| ≤
      |fitC1.yearResidual 0 (kCandidates i)| := by
  rw [abs_of_pos (f0_grid_pos _), abs_of_pos (f0_grid_pos _), kCand_100]
  rcases lt_trichotomy ((i : ℕ)) 100 with h | h | h
  · exact (f0_lt_of_le_neg_five _ (kCand_le_neg_five i (by omega))).le
  · have hi : kCandidates i = 0 := by
      unfold kCandidates
      rw [h]
      norm_num
    rw [hi]
  · exact f0_le_of_ge_five _ (kCand_ge_five i (by omega))

theorem f0_min_strict (i : Fin 201) (h : (i : ℕ) < 100) :
    |fitC1.yearResidual 0 (kCandidates ⟨100, by norm_num⟩)| <
      |fitC1.yearResidual 0 (kCandidates i)| := by
  rw [abs_of_pos (f0_grid_pos _), abs_of_pos (f0_grid_pos _), kCand_100]
  exact f0_lt_of_le_neg_five _ (kCand_le_neg_five i (by omega))

theorem fitC1_reest0 : ReestimateYear (fitC1.yearResidual 0) (fitC1.ktNew 0) := by
  have hkt : fitC1.ktNew 0 = kCandidates ⟨100, by norm_num⟩ := by
    rw [kCand_100]
    show ktNewC1 0 = 0
    norm_num [ktNewC1]
  rw [hkt]
  refine ReestimateYear.nearest ⟨100, by norm_num⟩ ?_ ?_ ?_ ?_
  · have h1 := f0_pos_of_nonpos (-500) (by norm_num)
    have h2 := f0_pos_of_ge_five 500 (by norm_num)
    exact not_lt.mpr (mul_pos h1 h2).le
  · intro i
    exact not_lt.mpr (mul_pos (f0_grid_pos _) (f0_grid_pos _)).le
  · exact f0_min_at_100
  · intro i hi
    exact f0_min_strict i hi

theorem fitC1_reest1 : ReestimateYear (fitC1.yearResidual 1) (fitC1.ktNew 1) := by
  have hkt : fitC1.ktNew 1 = -(5 / 2) := by
    show ktNewC1 1 = _
    norm_num [ktNewC1]
  rw [hkt]
  have hcast : (Fin.castSucc (⟨99, by norm_num⟩ : Fin 200)) = (⟨99, by norm_num⟩ : Fin 201) :=
    rfl
  have hsucc : (Fin.succ (⟨99, by norm_num⟩ : Fin 200)) = (⟨100, by norm_num⟩ : Fin 201) :=
    rfl
  refine ReestimateYear.scan _ ⟨99, by norm_num⟩ ?_ ?_ ?_ ?_ ?_
  · have h1 := f1_pos_of_le_neg_five (-500) (by norm_num)
    have h2 := f1_pos_of_ge_ten 500 (by norm_num)
    exact not_lt.mpr (mul_pos h1 h2).le
  · rw [hcast, hsucc, kCand_99, kCand_100]
    exact mul_neg_of_pos_of_neg (f1_pos_of_le_neg_five _ (by norm_num)) f1_neg_at_zero
  · intro i' hlt
    have hc : (Fin.castSucc i' : ℕ) = (i' : ℕ) := rfl
    have hs : (Fin.succ i' : ℕ) = (i' : ℕ) + 1 := rfl
    have hi' : (i' : ℕ) < 99 := hlt
    have p1 := f1_pos_of_le_neg_five (kCandidates (Fin.castSucc i'))
      (kCand_le_neg_five _ (by omega))
    have p2 := f1_pos_of_le_neg_five (kCandidates (Fin.succ i'))
      (kCand_le_neg_five _ (by simp only [hs]; omega))
    exact not_lt.mpr (mul_pos p1 p2).le
  · rw [hcast, hsucc, kCand_99, kCand_100]
    constructor <;> norm_num
  · exact fitC1_f1_root

theorem fitC1_spec : fitC1.Spec true := by
  refine ⟨by norm_num, by norm_num, by norm_num, fitC1_svd, fitC1_orthU, fitC1_orthV,
    ?_, ?_, ?_⟩
  · intro i
    fin_cases i
    · show (0 : ℝ) ≤ 5 / 2 * Real.sqrt 10
      positivity
    · exact le_refl 0
  · intro i j hij
    fin_cases i <;> fin_cases j
    · exact le_refl _
    · show (0 : ℝ) ≤ 5 / 2 * Real.sqrt 10
      positivity
    · exact absurd hij (by decide)
    · exact le_refl _
  · intro _ t
    fin_cases t
    · exact fitC1_reest0
    · exact fitC1_reest1

theorem implied_eq_residual {na ny k : ℕ} [NeZero k] (F : LCFit na ny k) (t : Fin ny) :
    (∑ x, F.ex x t * Real.exp (F.axFinal true x + F.bxFinal x * F.ktFinal true t)) =
      F.yearResidual t (F.ktNew t) + F.obsDeaths t := by
  have harg : ∀ x, F.axFinal true x + F.bxFinal x * F.ktFinal true t =
      F.ax1 x + F.bxFinal x * F.ktNew t := by
    intro x
    unfold LCFit.axFinal LCFit.ktFinal
    simp only [if_true]
    ring
  unfold LCFit.yearResidual deathResidual
  rw [Finset.sum_congr rfl fun x _ => by rw [harg x]]
  ring

/-- C1 (amended): after `LeeCarter.fit` with re-estimation, for every year in
which the root search succeeds — the wide bracket or the grid scan produced a
sign change, so `brentq` returns an exact root of the death-residual — the
model-implied total deaths equal the observed total deaths exactly (in
particular within 0.1%); the no-sign-change best-effort fallback carries no
such guarantee. -/
theorem reestimated_year_matches_observed {na ny k : ℕ} [NeZero k] (F : LCFit na ny k)
    (hspec : F.Spec true) (t : Fin ny) (hroot : F.yearResidual t (F.ktNew t) = 0) :
    (∑ x, F.ex x t * Real.exp (F.axFinal true x + F.bxFinal x * F.ktFinal true t)) =
      F.obsDeaths t := by
  rw [implied_eq_residual, hroot, zero_add]

/-- Witness for the amended C1: in the concrete run `fitC1`, year 1 resolves
through the grid-scan tier at the exact root `-5/2`, and its implied deaths
match the observed deaths. -/
theorem reestimated_year_matches_observed_witness :
    (fitC1.Spec true ∧ fitC1.yearResidual 1 (fitC1.ktNew 1) = 0) ∧
    (∑ x, fitC1.ex x 1 * Real.exp (fitC1.axFinal true x +
        fitC1.bxFinal x * fitC1.ktFinal true 1)) = fitC1.obsDeaths 1 := by
  have hkt : fitC1.ktNew 1 = -(5 / 2) := by
    show ktNewC1 1 = _
    norm_num [ktNewC1]
  have hroot : fitC1.yearResidual 1 (fitC1.ktNew 1) = 0 := by
    rw [hkt]
    exact fitC1_f1_root
  exact ⟨⟨fitC1_spec, hroot⟩,
    reestimated_year_matches_observed fitC1 fitC1_spec 1 hroot⟩

/-- C1 is refuted as stated: `fitC1` is a complete run of
`LeeCarter.fit(reestimate_kt=True)` on a validated dataset, yet in year 0 the
best-effort fallback fires (no sign change exists on the scanned grid) and
the model-implied total deaths miss the observed total deaths by far more
than 0.1% relative error. -/
theorem reestimated_deaths_mismatch :
    ValidMortalityData mxC1 dxC1 exC1 ∧ fitC1.Spec true ∧
      0.001 < |(∑ x, fitC1.ex x 0 * Real.exp (fitC1.axFinal true x +
          fitC1.bxFinal x * fitC1.ktFinal true 0)) - fitC1.obsDeaths 0| /
        fitC1.obsDeaths 0 := by
  refine ⟨validC1, fitC1_spec, ?_⟩
  rw [implied_eq_residual, add_sub_cancel_right]
  have hkt : fitC1.ktNew 0 = 0 := by
    show ktNewC1 0 = 0
    norm_num [ktNewC1]
  rw [hkt, f0_zero_eq, fitC1_obs0]
  have h3 : Real.exp (15 / 2) = Real.exp (5 / 2) * Real.exp 5 := by
    rw [← Real.exp_add]
    norm_num
  have h2 := exp_five_half_ge
  have h5 : (0 : ℝ) < Real.exp 5 := Real.exp_pos _
  have hnum : (0 : ℝ) < 1 + 2 * Real.exp (15 / 2) - 3 * Real.exp 5 := by nlinarith
  rw [abs_of_pos hnum, lt_div_iff (by positivity)]
  nlinarith

theorem fitC4_logMx : logMxOf mxC4 = logMxC4 := by
  ext x t
  show Real.log (Real.exp (logMxC4 x t)) = logMxC4 x t
  exact Real.log_exp _

theorem fitC4_rowMean : rowMean (logMxOf mxC4) = ![0, 0] := by
  rw [fitC4_logMx]
  funext x
  unfold rowMean
  fin_cases x <;> norm_num [logMxC4, Fin.sum_univ_two]

theorem fitC4_residual : residualOf (logMxOf mxC4) = logMxC4 := by
  ext x t
  show logMxOf mxC4 x t - rowMean (logMxOf mxC4) x = _
  rw [fitC4_rowMean, fitC4_logMx]
  fin_cases x <;> fin_cases t <;> norm_num [logMxC4]

theorem fitC4_svd : residualOf (logMxOf mxC4) = UC4 * Matrix.diagonal SC4 * VtC4 := by
  rw [fitC4_residual]
  unfold logMxC4 UC4 SC4 VtC4
  rw [diagonal_fin_two, Matrix.mul_fin_two, Matrix.mul_fin_two]
  have h2 := sqrt2_pos.ne'
  have h2s := sqrt2_sq
  ext x t
  fin_cases x <;> fin_cases t <;>
    simp only [Matrix.cons_val_zero, Matrix.cons_val_one, Matrix.head_cons] <;>
    field_simp <;> (first | ring1 | nlinarith [h2s])

theorem fitC4_orthU : UC4.transpose * UC4 = 1 := by
  unfold UC4
  rw [transpose_fin_two, Matrix.mul_fin_two, Matrix.one_fin_two]
  have h2 := sqrt2_pos.ne'
  have h2s := sqrt2_sq
  ext x t
  fin_cases x <;> fin_cases t <;>
    simp only [Matrix.cons_val_zero, Matrix.cons_val_one, Matrix.head_cons] <;>
    field_simp <;> (first | ring1 | nlinarith [h2s])

theorem fitC4_orthV : VtC4 * VtC4.transpose = 1 := by
  unfold VtC4
  rw [transpose_fin_two, Matrix.mul_fin_two, Matrix.one_fin_two]
  have h2 := sqrt2_pos.ne'
  have h2s := sqrt2_sq
  ext x t
  fin_cases x <;> fin_cases t <;>
    simp only [Matrix.cons_val_zero, Matrix.cons_val_one, Matrix.head_cons] <;>
    field_simp <;> (first | ring1 | nlinarith [h2s])

theorem validC4 : ValidMortalityData mxC4 dxC4 exC4 := by
  refine ⟨fun x t => Real.exp_pos _, fun x t => ?_, fun x t => ?_⟩
  · fin_cases x <;> fin_cases t <;> norm_num [exC4]
  · have hex : exC4 x t ≠ 0 := by
      fin_cases x <;> fin_cases t <;> norm_num [exC4]
    have hdx : dxC4 x t = exC4 x t * mxC4 x t := rfl
    rw [hdx, mul_div_cancel_left₀ _ hex, sub_self, abs_zero, zero_div]
    norm_num

theorem fitC4_spec : fitC4.Spec false := by
  refine ⟨by norm_num, by norm_num, by norm_num, fitC4_svd, fitC4_orthU, fitC4_orthV,
    ?_, ?_, fun h => nomatch h⟩
  · intro i
    fin_cases i
    · show (0 : ℝ) ≤ 2
      norm_num
    · exact le_refl 0
  · intro i j hij
    fin_cases i <;> fin_cases j
    · exact le_refl _
    · show (0 : ℝ) ≤ 2
      norm_num
    · exact absurd hij (by decide)
    · exact le_refl _

theorem fitC4_bxSumRaw : fitC4.bxSumRaw = 0 := by
  unfold LCFit.bxSumRaw LCFit.bxRaw
  rw [Fin.sum_univ_two]
  show UC4 0 0 + UC4 1 0 = 0
  norm_num [UC4]

theorem fitC4_bxFinal : fitC4.bxFinal = fun _ => 0 := by
  funext x
  unfold LCFit.bxFinal
  rw [fitC4_bxSumRaw]
  norm_num

theorem fitC4_ktScaled : fitC4.ktScaled = fun _ => 0 := by
  funext t
  unfold LCFit.ktScaled
  rw [fitC4_bxSumRaw]
  norm_num

theorem fitC4_ktFinal : fitC4.ktFinal false = fun _ => 0 := by
  funext t
  unfold LCFit.ktFinal LCFit.ktCentered LCFit.ktOffset
  simp only [Bool.false_eq_true, if_false, fitC4_ktScaled]
  norm_num

/-- C4 is refuted as stated: `fitC4` is a run of `LeeCarter.fit` on a
validated dataset whose dominant residual direction sums to zero; the
normalisation `bx_raw / bx_sum` divides by zero (numpy: inf/nan, here the
`x / 0 = 0` convention) and the identifiability constraint
`|sum(bx) - 1| < 1e-6` fails. -/
theorem constraints_violated_when_raw_sum_zero :
    ValidMortalityData mxC4 dxC4 exC4 ∧ fitC4.Spec false ∧
      ¬ (|(∑ x, fitC4.bxFinal x) - 1| < 1e-6 ∧ |∑ t, fitC4.ktFinal false t| < 1e-6) := by
  refine ⟨validC4, fitC4_spec, ?_⟩
  rintro ⟨h1, _⟩
  rw [show (∑ x, fitC4.bxFinal x) = 0 from by
    rw [fitC4_bxFinal]
    simp] at h1
  norm_num at h1

/-- C4 (amended): for every fitted Lee-Carter model whose raw first left
singular vector has nonzero sum — the generic, non-degenerate case — the
identifiability constraints hold exactly: `|sum(bx) - 1| < 1e-6` and
`|sum(kt)| < 1e-6`, with or without `k_t` re-estimation. -/
theorem constraints_hold_when_raw_sum_nonzero {na ny k : ℕ} [NeZero k] (re : Bool)
    (F : LCFit na ny k) (hspec : F.Spec re) (hsum : F.bxSumRaw ≠ 0) :
    |(∑ x, F.bxFinal x) - 1| < 1e-6 ∧ |∑ t, F.ktFinal re t| < 1e-6 := by
  obtain ⟨hk, hna, hny, _⟩ := hspec
  have hnyR : ((ny : ℕ) : ℝ) ≠ 0 := Nat.cast_ne_zero.mpr hny.ne'
  have hker : ∀ g : Fin ny → ℝ, (∑ t, (g t - (∑ u, g u) / ny)) = 0 := by
    intro g
    rw [Finset.sum_sub_distrib, Finset.sum_const, Finset.card_univ, Fintype.card_fin,
      nsmul_eq_mul, mul_div_cancel₀ _ hnyR]
    ring
  constructor
  · have hsumbx : (∑ x, F.bxFinal x) = 1 := by
      unfold LCFit.bxFinal
      by_cases hlt : F.bxSumRaw < 0
      · simp only [if_pos hlt]
        rw [← Finset.sum_div, Finset.sum_neg_distrib]
        show -F.bxSumRaw / -F.bxSumRaw = 1
        exact div_self (neg_ne_zero.mpr hsum)
      · simp only [if_neg hlt]
        rw [← Finset.sum_div]
        show F.bxSumRaw / F.bxSumRaw = 1
        exact div_self hsum
    rw [hsumbx]
    norm_num
  · cases re
    · have h0 : (∑ t, F.ktFinal false t) = 0 := by
        unfold LCFit.ktFinal LCFit.ktCentered LCFit.ktOffset
        simp only [Bool.false_eq_true, if_false]
        exact hker F.ktScaled
      rw [h0]
      norm_num
    · have h0 : (∑ t, F.ktFinal true t) = 0 := by
        unfold LCFit.ktFinal LCFit.reestOffset
        simp only [if_true]
        exact hker F.ktNew
      rw [h0]
      norm_num

/-- Witness for the amended C4 at the concrete run `fitC1`, whose raw
sensitivity sum is `1 / sqrt 5 ≠ 0`. -/
theorem constraints_hold_when_raw_sum_nonzero_witness :
    (fitC1.Spec true ∧ fitC1.bxSumRaw ≠ 0) ∧
      (|(∑ x, fitC1.bxFinal x) - 1| < 1e-6 ∧ |∑ t, fitC1.ktFinal true t| < 1e-6) := by
  have hsum : fitC1.bxSumRaw ≠ 0 := by
    rw [fitC1_bxSumRaw]
    positivity
  exact ⟨⟨fitC1_spec, hsum⟩,
    constraints_hold_when_raw_sum_nonzero true fitC1 fitC1_spec hsum⟩

theorem fitC1_spec_false : fitC1.Spec false := by
  obtain ⟨h1, h2, h3, h4, h5, h6, h7, h8, _⟩ := fitC1_spec
  exact ⟨h1, h2, h3, h4, h5, h6, h7, h8, fun h => nomatch h⟩

/-- C8 is refuted as stated: on the degenerate dataset `mxC4` the raw
sensitivity sums to zero, the normalisation collapses, and the fitted
log-surface `ax + bx*kt` no longer equals the row means plus the dominant
SVD term of the residual. -/
theorem reconstruction_fails_when_raw_sum_zero :
    ValidMortalityData mxC4 dxC4 exC4 ∧ fitC4.Spec false ∧
      fitC4.axFinal false 0 + fitC4.bxFinal 0 * fitC4.ktFinal false 0 ≠
        rowMean (logMxOf fitC4.mx) 0 + fitC4.S 0 * fitC4.U 0 0 * fitC4.Vt 0 0 := by
  refine ⟨validC4, fitC4_spec, ?_⟩
  have hL : fitC4.axFinal false 0 + fitC4.bxFinal 0 * fitC4.ktFinal false 0 = 0 := by
    unfold LCFit.axFinal LCFit.ax1 LCFit.ktOffset
    simp only [Bool.false_eq_true, if_false]
    rw [fitC4_ktFinal, fitC4_bxFinal, fitC4_ktScaled]
    show rowMean (logMxOf mxC4) 0 + 0 * _ + 0 * _ = 0
    rw [fitC4_rowMean]
    norm_num
  have hR : rowMean (logMxOf fitC4.mx) 0 + fitC4.S 0 * fitC4.U 0 0 * fitC4.Vt 0 0 = 1 := by
    show rowMean (logMxOf mxC4) 0 + SC4 0 * UC4 0 0 * VtC4 0 0 = 1
    rw [fitC4_rowMean]
    have h2s := sqrt2_sq
    have h2 := sqrt2_pos.ne'
    norm_num [SC4, UC4, VtC4]
    field_simp
  rw [hL, hR]
  norm_num

/-- C8 (amended): each re-centering step preserves the fitted surface
`ax + bx*kt` exactly (both the SVD centering and the post-re-estimation
centering), and consequently for a fit without re-estimation whose raw
sensitivity sum is nonzero the fitted log-rate matrix equals the row means
plus the dominant SVD term `S[0] * U[:,0] ⊗ Vt[0,:]` of the residual. -/
theorem recentering_preserves_surface :
    ∀ (na ny k : ℕ) [NeZero k] (F : LCFit na ny k) (x : Fin na) (t : Fin ny),
      (F.ax1 x + F.bxFinal x * F.ktCentered t =
        rowMean (logMxOf F.mx) x + F.bxFinal x * F.ktScaled t) ∧
      (F.axFinal true x + F.bxFinal x * F.ktFinal true t =
        F.ax1 x + F.bxFinal x * F.ktNew t) ∧
      (F.Spec false → F.bxSumRaw ≠ 0 →
        F.axFinal false x + F.bxFinal x * F.ktFinal false t =
          rowMean (logMxOf F.mx) x + F.S 0 * F.U x 0 * F.Vt 0 t) := by
  intro na ny k _ F x t
  refine ⟨?_, ?_, ?_⟩
  · unfold LCFit.ax1 LCFit.ktCentered
    ring
  · unfold LCFit.axFinal LCFit.ktFinal
    simp only [if_true]
    ring
  · intro _ hsum
    have hprod : F.bxFinal x * F.ktScaled t = F.S 0 * F.U x 0 * F.Vt 0 t := by
      unfold LCFit.bxFinal LCFit.ktScaled LCFit.bxRaw LCFit.ktRaw
      by_cases hlt : F.bxSumRaw < 0
      · simp only [if_pos hlt]
        field_simp
        ring
      · simp only [if_neg hlt]
        field_simp
        ring
    have hlin : F.axFinal false x + F.bxFinal x * F.ktFinal false t =
        rowMean (logMxOf F.mx) x + F.bxFinal x * F.ktScaled t := by
      unfold LCFit.axFinal LCFit.ktFinal LCFit.ax1 LCFit.ktCentered
      simp only [Bool.false_eq_true, if_false]
      ring
    rw [hlin, hprod]

/-- Witness for the amended C8 at the concrete non-degenerate run `fitC1`
(used here with re-estimation off), at age 0 and year 0. -/
theorem recentering_preserves_surface_witness :
    (fitC1.Spec false ∧ fitC1.bxSumRaw ≠ 0) ∧
      fitC1.axFinal false 0 + fitC1.bxFinal 0 * fitC1.ktFinal false 0 =
        rowMean (logMxOf fitC1.mx) 0 + fitC1.S 0 * fitC1.U 0 0 * fitC1.Vt 0 0 := by
  have hsum : fitC1.bxSumRaw ≠ 0 := by
    rw [fitC1_bxSumRaw]
    positivity
  exact ⟨⟨fitC1_spec_false, hsum⟩,
    ((recentering_preserves_surface 2 2 2 fitC1 0 0).2.2) fitC1_spec_false hsum⟩

end SIMA
